import Mathlib

/-!
Verification development for `survey_conda_envs.py`.

The Python program is embedded shallowly:

* Filesystem paths are modelled in two forms.  A `Path` is an absolute,
  normalised path given as its list of components (`/a/b` is `["a", "b"]`).
  A `RawPath` is a path as the user or a symlink target spells it: an
  absolute/relative flag plus components that may still contain `""`
  (from doubled or trailing slashes), `"."` and `".."`; `abspath` mirrors
  `os.path.abspath` (join with the working directory plus `normpath`).
  On absolute component lists, `os.path.join(d, n)` is `d ++ [n]`,
  `os.path.dirname` is `List.dropLast` and `os.path.basename` of the raw
  spelling is the last raw component (`""` for a trailing slash).

* The filesystem snapshot is a record `FS` of the query functions the
  program uses (`os.path.isdir/isfile/islink`, `os.readlink`,
  `os.listdir`, and `open`+`json.load` fused into `openJson`, whose outer
  `Option` is an I/O failure of `open` and whose inner `Except` is the
  parse outcome).  The program only ever observes the filesystem through
  these functions, so an arbitrary `FS` covers every snapshot.

* The process-wide mutable state (`Guess.GUESSES` plus everything the
  program prints or reports) is a record `St` threaded explicitly.
  Python object identity is represented arena-style, as suggested by the
  reference-graph structure: the canonical store of each `Guess` object
  is the cache entry at its canonical path, and an object reference held
  in a `base` attribute is `BaseVal.ref key`.  In every terminating run
  the cache holds at most one object per canonical path, so reference
  equality coincides with key equality.

* Exceptions become `Except Fail`; nontermination is made observable by
  a fuel parameter on the recursive entry points (`make_guess`,
  `survey`), with exhaustion reported as `Fail.fuelOut`.  A computation
  that yields `.error .fuelOut` for every fuel diverges in Python
  (ending in `RecursionError`).

* `os.walk(top, onerror=...)` (top-down, `followlinks=False`) is
  inlined into `survey`: list the directory (on `OSError` call `onerror`
  and skip the subtree), take the entries that are directories, yield
  the node, then recurse into each remaining directory name that is not
  a symlink.  The body of the `for` loop of `survey` runs between the
  yield and the recursion, so clearing `dirnames` prunes the subtree.
  A `.visit` event records each yielded node; `.report`, `.walkError`
  and `.parseDiag` record the observable callback/stderr actions.
-/

deriving instance DecidableEq for Except

namespace SurveyCondaEnvs

/-! ### Paths -/

abbrev Path := List String

/-- A path as spelled in the program's inputs or in a symlink target:
absolute flag plus raw components (which may contain `""`, `"."`, `".."`). -/
structure RawPath where
  absolute : Bool
  comps : List String
deriving DecidableEq, Inhabited

/-- `os.path.normpath` on an absolute component list: drop empty and `"."`
components, resolve `".."` against the prefix (at the root, `/..` is `/`). -/
def normPath (comps : List String) : Path :=
  comps.foldl (fun acc c =>
    if c = "" ∨ c = "." then acc
    else if c = ".." then acc.dropLast
    else acc ++ [c]) []

/-- `os.path.abspath`: join with the working directory when relative, then
normalise. -/
def abspath (cwd : Path) (r : RawPath) : Path :=
  if r.absolute then normPath r.comps else normPath (cwd ++ r.comps)

/-- `os.path.basename` of the raw spelling: text after the last slash,
so the last raw component, and `""` for a trailing slash or bare `/`. -/
def basenameRaw (r : RawPath) : String :=
  r.comps.getLastD ""

/-- `str.startswith` (ASCII), via character lists so that it evaluates in
the kernel. -/
def pyStartsWith (s pre : String) : Bool :=
  pre.toList.isPrefixOf s.toList

/-- `str.endswith` (ASCII). -/
def pyEndsWith (s suf : String) : Bool :=
  suf.toList.reverse.isPrefixOf s.toList.reverse

/-- `str` of an absolute path: `/` before each component. -/
def strOfPath (p : Path) : String :=
  p.foldl (fun acc c => acc ++ "/" ++ c) ""

/-! ### Python `dict` as an association list (insertion ordered,
in-place overwrite, exactly `d[k]`, `d.get(k)`, `d[k] = v`). -/

def dictGet {α β : Type} [DecidableEq α] : List (α × β) → α → Option β
  | [], _ => none
  | (k, v) :: rest, key => if key = k then some v else dictGet rest key

def dictSet {α β : Type} [DecidableEq α] : List (α × β) → α → β → List (α × β)
  | [], key, val => [(key, val)]
  | (k, v) :: rest, key, val =>
    if key = k then (k, val) :: rest else (k, v) :: dictSet rest key val

def dictUpdate {α β : Type} [DecidableEq α] : List (α × β) → α → (β → β) → List (α × β)
  | [], _, _ => []
  | (k, v) :: rest, key, f =>
    if key = k then (k, f v) :: rest else (k, v) :: dictUpdate rest key f

/-! ### Filesystem snapshot -/

/-- The result of `json.load` on a package metadata file, restricted to the
two fields the program reads via `data.get`; a missing field is `none`
(which is also how a JSON `null` value reads back). -/
structure MetaJson where
  name : Option String
  version : Option String
deriving DecidableEq, Inhabited

/-- The filesystem snapshot, as the query functions the program calls.
`openJson p` fuses `open(p)` and `json.load`: the outer `none` is an
`OSError` from `open`, `some (.error ())` is a `json` parse error, and
`some (.ok d)` is a successful parse.  `listdir p = none` is an `OSError`
from `os.scandir`/`os.listdir`. -/
structure FS where
  cwd : Path
  isdir : Path → Bool
  isfile : Path → Bool
  islink : Path → Bool
  readlink : Path → Option RawPath
  listdir : Path → Option (List String)
  openJson : Path → Option (Except Unit MetaJson)

/-! ### Module constants (lines 13-22 of the source) -/

def PATHOLOGICAL_DIRS : List String := [".git", ".rbenv", "pkgs"]

def PACKAGES_FOR_GUESS_VERSIONS : List String := ["conda", "python"]

def N_A : String := "(?)"

/-! ### Data model -/

/-- The value of the `base` attribute of a `Guess`: `None`, a raw path
string (set by the symlink-cycle guard in `_find_base`), or a reference
to a `Guess` object, identified by its canonical path (arena key). -/
inductive BaseVal where
  | noneB : BaseVal
  | strB : Path → BaseVal
  | ref : Path → BaseVal
deriving DecidableEq, Inhabited

/-- The fields of a `Guess` object as set by `Guess.__init__`. -/
structure Guess where
  dirpath : RawPath
  path : Path
  meta_dir : Path
  history_file : Path
  bin_dir : Path
  activate_file : Path
  base : BaseVal
  versions : List (String × Option String)
deriving DecidableEq, Inhabited

/-- An abnormal outcome: fuel exhaustion (modelling nontermination /
`RecursionError`), a `json` parse error re-raised from `_find_versions`,
an uncaught `OSError`, or the `AttributeError` from `None.startswith`. -/
inductive Fail where
  | fuelOut : Fail
  | parseErr : Path → Fail
  | osErr : Path → Fail
  | attrErr : Fail
deriving DecidableEq, Inhabited

/-- Observable actions of a run: a node yielded by the walk, a call of the
`report` callback, a call of the `onerror` callback, and the
`'!! meta_file:'` diagnostic printed before a parse error is re-raised. -/
inductive Event where
  | visit : Path → Event
  | report : Guess → Event
  | walkError : Path → Event
  | parseDiag : Path → Event
deriving DecidableEq

/-- Process state: the `Guess.GUESSES` cache plus the event trace. -/
structure St where
  cache : List (Path × Guess)
  events : List Event
deriving DecidableEq

def initSt : St := ⟨[], []⟩

/-! ### The embedded program -/

/-- `Guess.is_conda_environment` (lines 73-78): a method, re-evaluated
against the filesystem on every call. -/
def is_conda_environment (fs : FS) (meta_dir history_file : Path) : Bool :=
  if !fs.isdir meta_dir then false
  else if !fs.isfile history_file then false
  else true

/-- The environment test at a canonical directory path, with the fixed
relative layout of `Guess.__init__` (lines 63-64). -/
def envPred (fs : FS) (p : Path) : Bool :=
  is_conda_environment fs (p ++ ["conda-meta"]) (p ++ ["conda-meta", "history"])

/-- `resolve_link` (lines 120-125): `os.readlink`, then `os.path.join`
with the link's directory when the target is relative.  An `OSError` from
`os.readlink` is uncaught. -/
def resolve_link (fs : FS) (link : Path) : Except Fail Path :=
  match fs.readlink link with
  | none => .error (.osErr link)
  | some target =>
    if target.absolute then .ok target.comps
    else .ok (link.dropLast ++ target.comps)

/-- The `for meta_name in meta_names` loop of `Guess._find_versions`
(lines 100-116).  A parse failure prints the `'!! meta_file:'` diagnostic
and re-raises; a failing `open` raises an uncaught `OSError`. -/
def find_versions_go (fs : FS) (meta_dir : Path) :
    List String → List (String × Option String) → St →
    St × Except Fail (List (String × Option String))
  | [], versions, st => (st, .ok versions)
  | meta_name :: rest, versions, st =>
    if !pyEndsWith meta_name ".json" then
      find_versions_go fs meta_dir rest versions st
    else if !PACKAGES_FOR_GUESS_VERSIONS.any (fun q => pyStartsWith meta_name q) then
      find_versions_go fs meta_dir rest versions st
    else
      let meta_file := meta_dir ++ [meta_name]
      match fs.openJson meta_file with
      | none => (st, .error (.osErr meta_file))
      | some (.error _) =>
        ({ st with events := st.events ++ [.parseDiag meta_file] },
         .error (.parseErr meta_file))
      | some (.ok data) =>
        let nm := data.name
        let version := data.version
        match nm with
        | some n =>
          if n ≠ "" then find_versions_go fs meta_dir rest (dictSet versions n version) st
          else find_versions_go fs meta_dir rest versions st
        | none => find_versions_go fs meta_dir rest versions st

/-- `Guess._find_versions` (lines 96-117): `versions` stays `{}` unless the
directory is an environment; `os.listdir(self.meta_dir)` raises uncaught on
error.  (`if name:` is Python truthiness: `None` and `""` are falsy, so an
entry is recorded whenever `name` is present and non-empty, with the raw
`version` value — possibly `None`.) -/
def find_versions (fs : FS) (meta_dir history_file : Path) (st : St) :
    St × Except Fail (List (String × Option String)) :=
  if is_conda_environment fs meta_dir history_file then
    match fs.listdir meta_dir with
    | none => (st, .error (.osErr meta_dir))
    | some meta_names => find_versions_go fs meta_dir meta_names [] st
  else (st, .ok [])

/-- `Guess._find_base` (lines 80-94).  `recurse` is `make_guess` applied to
an absolute path string (the `make_guess(base_dir)` call on line 91).
`base = self` is the reference to the object under construction, i.e.
`.ref path` in the arena representation. -/
def find_base (fs : FS) (recurse : Path → St → St × Except Fail Guess)
    (path meta_dir history_file activate_file : Path) (st : St) :
    St × Except Fail BaseVal :=
  if is_conda_environment fs meta_dir history_file then
    if fs.islink activate_file then
      match resolve_link fs activate_file with
      | .error e => (st, .error e)
      | .ok base_activate_file =>
        let base_bin_dir := base_activate_file.dropLast
        let base_dir := base_bin_dir.dropLast
        if fs.islink base_activate_file then
          (st, .ok (.strB base_dir))
        else
          match recurse base_dir st with
          | (st1, .error e) => (st1, .error e)
          | (st1, .ok bg) => (st1, .ok (.ref bg.path))
    else if fs.isfile activate_file then (st, .ok (.ref path))
    else (st, .ok .noneB)
  else (st, .ok .noneB)

/-- `Guess.__init__` (lines 60-68): derive the fixed layout, run
`_find_base`, then `_find_versions`, and return the fully populated
object.  Nothing is inserted into the cache here: the assignment
`Guess.GUESSES[path] = Guess(dirpath)` on line 49 evaluates the
constructor first. -/
def guess_init (fs : FS) (recurse : Path → St → St × Except Fail Guess)
    (dirpath : RawPath) (st : St) : St × Except Fail Guess :=
  let path := abspath fs.cwd dirpath
  let meta_dir := path ++ ["conda-meta"]
  let history_file := meta_dir ++ ["history"]
  let bin_dir := path ++ ["bin"]
  let activate_file := bin_dir ++ ["activate"]
  match find_base fs recurse path meta_dir history_file activate_file st with
  | (st1, .error e) => (st1, .error e)
  | (st1, .ok base) =>
    match find_versions fs meta_dir history_file st1 with
    | (st2, .error e) => (st2, .error e)
    | (st2, .ok versions) =>
      (st2, .ok ⟨dirpath, path, meta_dir, history_file, bin_dir, activate_file,
                 base, versions⟩)

/-- Lines 51-53 of `make_guess`: if `guess.base` is a raw string, replace
it by `make_guess(base)` — a mutation of the cached object, so the arena
entry at `guess.path` is updated in place and the updated object is
returned. -/
def fix_base (fs : FS) (recurse : Path → St → St × Except Fail Guess)
    (guess : Guess) (st : St) : St × Except Fail Guess :=
  match guess.base with
  | .strB b =>
    match recurse b st with
    | (st1, .error e) => (st1, .error e)
    | (st1, .ok bg) =>
      let upd : Guess → Guess := fun e => { e with base := .ref bg.path }
      let st2 : St := { st1 with cache := dictUpdate st1.cache guess.path upd }
      (st2, .ok ((dictGet st2.cache guess.path).getD { guess with base := .ref bg.path }))
  | _ => (st, .ok guess)

/-- `make_guess` (lines 46-54), with fuel making nontermination
observable: construct and insert when the canonical path is missing
(construction runs *before* the insertion, as in
`Guess.GUESSES[path] = Guess(dirpath)`), then the string-base fixup of
lines 51-53. -/
def make_guess : Nat → FS → RawPath → St → St × Except Fail Guess
  | 0, _, _, st => (st, .error .fuelOut)
  | fuel + 1, fs, dirpath, st =>
    let recurse := fun (b : Path) (s : St) => make_guess fuel fs ⟨true, b⟩ s
    let path := abspath fs.cwd dirpath
    match dictGet st.cache path with
    | some guess => fix_base fs recurse guess st
    | none =>
      match guess_init fs recurse dirpath st with
      | (st1, .error e) => (st1, .error e)
      | (st1, .ok g) =>
        let st2 : St := { st1 with cache := dictSet st1.cache path g }
        fix_base fs recurse g st2

/-- The `for dirname in dirs` recursion of `os.walk` after the caller's
loop body ran: skip symlinked directories (`followlinks=False`), recurse
into the rest in order, where `walk` is the walk of one subtree. -/
def survey_children (fs : FS) (walk : RawPath → St → St × Except Fail Unit)
    (dirpath : RawPath) : List String → St → St × Except Fail Unit
  | [], st => (st, .ok ())
  | dirname :: rest, st =>
    let new_path : RawPath := ⟨dirpath.absolute, dirpath.comps ++ [dirname]⟩
    if fs.islink (abspath fs.cwd new_path) then
      survey_children fs walk dirpath rest st
    else
      match walk new_path st with
      | (st1, .error e) => (st1, .error e)
      | (st1, .ok _) => survey_children fs walk dirpath rest st1

/-- `survey` (lines 30-43) with `os.walk(starting_directory, onerror=...)`
(top-down, `followlinks=False`) inlined at one node: scan the directory
(on `OSError` call `onerror` and return), compute `dirnames`, yield the
node (a `.visit` event), run the loop body — `make_guess`, report/prune —
and recurse into the surviving `dirnames`. -/
def survey : Nat → FS → List String → RawPath → St → St × Except Fail Unit
  | 0, _, _, _, st => (st, .error .fuelOut)
  | fuel + 1, fs, avoid, dirpath, st =>
    let p := abspath fs.cwd dirpath
    match fs.listdir p with
    | none => ({ st with events := st.events ++ [.walkError p] }, .ok ())
    | some entries =>
      let dirnames := entries.filter (fun n => fs.isdir (p ++ [n]))
      let st0 : St := { st with events := st.events ++ [.visit p] }
      match make_guess fuel fs dirpath st0 with
      | (st1, .error e) => (st1, .error e)
      | (st1, .ok guess) =>
        if is_conda_environment fs guess.meta_dir guess.history_file then
          ({ st1 with events := st1.events ++ [.report guess] }, .ok ())
        else if basenameRaw dirpath ∈ avoid then (st1, .ok ())
        else
          survey_children fs (fun c s => survey fuel fs avoid c s) dirpath dirnames st1

/-- `report_for_jira` (lines 128-152), with the hostname as a parameter.
`guess.versions.get(k, N_A)` yields the stored value — possibly `None` —
when the key is present; `python_ver.startswith` on `None` raises
`AttributeError`; `str(None)` is `"None"`; `base == guess` is reference
equality, i.e. equality of arena keys. -/
def report_for_jira (host : String) (guess : Guess) : Except Fail String :=
  let conda_ver : Option String :=
    match dictGet guess.versions "conda" with
    | none => some N_A
    | some v => v
  let python_ver : Option String :=
    match dictGet guess.versions "python" with
    | none => some N_A
    | some v => v
  match python_ver with
  | none => .error .attrErr
  | some pv =>
    let pv2 := if pyStartsWith pv "2." then pv ++ "(!)" else pv
    let conda_str := match conda_ver with | none => "None" | some s => s
    let base_str :=
      match guess.base with
      | .noneB => N_A
      | .strB s => strOfPath s
      | .ref k => if k = guess.path then "-" else strOfPath k
    .ok ("| " ++ String.intercalate " | "
      [host, strOfPath guess.path, conda_str, pv2, base_str] ++ " |")

/-! ### Verification-layer predicates -/

/-- Whether a `base` attribute currently holds a raw path string. -/
def isStrB : BaseVal → Bool
  | .strB _ => true
  | _ => false

/-- Every cached object sits at its canonical path and carries the fixed
relative layout derived in `Guess.__init__`. -/
def goodCache (s : St) : Prop :=
  ∀ k g, dictGet s.cache k = some g →
    g.path = k ∧ g.meta_dir = k ++ ["conda-meta"] ∧
    g.history_file = k ++ ["conda-meta", "history"] ∧
    g.bin_dir = k ++ ["bin"] ∧ g.activate_file = k ++ ["bin", "activate"]

/-- How a cached object may change over a run: every field set by the
constructor is untouched, except that a raw-string `base` may be replaced
by an object reference (the fixup of lines 51-53). -/
def preservedEntry (e e' : Guess) : Prop :=
  e'.dirpath = e.dirpath ∧ e'.path = e.path ∧ e'.meta_dir = e.meta_dir ∧
  e'.history_file = e.history_file ∧ e'.bin_dir = e.bin_dir ∧
  e'.activate_file = e.activate_file ∧ e'.versions = e.versions ∧
  (e'.base = e.base ∨ ∃ b k, e.base = .strB b ∧ e'.base = .ref k)

/-- Cache entries are never removed, and each evolves only per
`preservedEntry`. -/
def cacheEvolves (s s' : St) : Prop :=
  ∀ k e, dictGet s.cache k = some e →
    ∃ e', dictGet s'.cache k = some e' ∧ preservedEntry e e'

/-- `make_guess` only appends parse diagnostics to the event trace. -/
def eventsAppended (s s' : St) : Prop :=
  ∃ δ, s'.events = s.events ++ δ ∧ ∀ ev ∈ δ, ∃ q, ev = Event.parseDiag q

/-- The soundness contract of the recursive `make_guess` reference used by
`_find_base` and the line 51-53 fixup. -/
def RecOK (recurse : Path → St → St × Except Fail Guess) : Prop :=
  ∀ b st st' r, goodCache st → recurse b st = (st', r) →
    goodCache st' ∧ cacheEvolves st st' ∧ eventsAppended st st' ∧
    ∀ g, r = .ok g → dictGet st'.cache (normPath b) = some g ∧ isStrB g.base = false

/-- A directory-entry name as `os.scandir` can actually produce it:
never empty, `"."` or `".."`. -/
def goodName (n : String) : Prop :=
  n ≠ "" ∧ n ≠ "." ∧ n ≠ ".."

instance (n : String) : Decidable (goodName n) := by
  unfold goodName
  infer_instance

/-- Sanity of a snapshot's directory listings: real `os.scandir` results
have no duplicate names and no `""`/`"."`/`".."` entries. -/
def okNames (fs : FS) : Prop :=
  ∀ p l, fs.listdir p = some l → l.Nodup ∧ ∀ n ∈ l, goodName n

/-- The nodes yielded by the walk, in order. -/
def visitsOf (l : List Event) : List Path :=
  l.filterMap fun e => match e with | .visit p => some p | _ => none

/-- The per-subtree contract of the walk rooted at `d`: the events it adds
are confined to the subtree, environments and denylisted names are pruned,
reports go exactly to visited environments, and on a clean run every
visited environment is reported. -/
def WalkOK (fs : FS) (avoid : List String)
    (walk : RawPath → St → St × Except Fail Unit) : Prop :=
  ∀ (d : RawPath) (st st' : St) (r : Except Fail Unit), goodCache st →
    walk d st = (st', r) →
    goodCache st' ∧
    ∃ Δ, st'.events = st.events ++ Δ ∧
      (∀ q, Event.visit q ∈ Δ → ∃ t, q = abspath fs.cwd d ++ t) ∧
      (envPred fs (abspath fs.cwd d) = true →
        ∀ q, Event.visit q ∈ Δ → q = abspath fs.cwd d) ∧
      (envPred fs (abspath fs.cwd d) = false → basenameRaw d ∈ avoid →
        ∀ q, Event.visit q ∈ Δ → q = abspath fs.cwd d) ∧
      (∀ g, Event.report g ∈ Δ → envPred fs g.path = true) ∧
      (r = .ok () → ∀ q, Event.visit q ∈ Δ → envPred fs q = true →
        ∃ g, Event.report g ∈ Δ ∧ g.path = q) ∧
      (∀ q, Event.visit q ∈ Δ → envPred fs q = true →
        ∀ s, s ≠ [] → Event.visit (q ++ s) ∉ Δ) ∧
      (∀ q n, Event.visit q ∈ Δ → envPred fs q = false → q ≠ abspath fs.cwd d →
        q.getLast? = some n → n ∈ avoid →
        ∀ s, s ≠ [] → Event.visit (q ++ s) ∉ Δ)

/-! ### Concrete snapshots used by witnesses and counterexamples -/

/-- A snapshot where nothing exists; the working directory is `/h`. -/
def fsEmpty : FS :=
  ⟨["h"], fun _ => false, fun _ => false, fun _ => false,
   fun _ => none, fun _ => none, fun _ => none⟩

/-- `/e`, `/b`, `/c` are environments; `/e/bin/activate` is a symlink to
`/b/bin/activate`, itself a symlink to `/c/bin/activate`, a plain file.
The cycle guard fires for `/e` (its target is a link) while `/b` resolves
to `/c`, which is its own base. -/
def fsChain : FS where
  cwd := []
  isdir := fun p => decide (p ∈ [["e"], ["b"], ["c"],
    ["e", "conda-meta"], ["b", "conda-meta"], ["c", "conda-meta"]])
  isfile := fun p => decide (p ∈ [["e", "conda-meta", "history"],
    ["b", "conda-meta", "history"], ["c", "conda-meta", "history"],
    ["c", "bin", "activate"]])
  islink := fun p => decide (p ∈ [["e", "bin", "activate"], ["b", "bin", "activate"]])
  readlink := fun p =>
    if p = ["e", "bin", "activate"] then some ⟨true, ["b", "bin", "activate"]⟩
    else if p = ["b", "bin", "activate"] then some ⟨true, ["c", "bin", "activate"]⟩
    else none
  listdir := fun p =>
    if p ∈ [["e", "conda-meta"], ["b", "conda-meta"], ["c", "conda-meta"]] then
      some ["history"]
    else none
  openJson := fun _ => none

/-- `/e` is an environment whose `bin/activate` is a symlink to itself:
the smallest genuine one-hop symlink loop. -/
def fsLoop : FS where
  cwd := []
  isdir := fun p => decide (p ∈ [["e"], ["e", "conda-meta"]])
  isfile := fun p => decide (p = ["e", "conda-meta", "history"])
  islink := fun p => decide (p = ["e", "bin", "activate"])
  readlink := fun p =>
    if p = ["e", "bin", "activate"] then some ⟨true, ["e", "bin", "activate"]⟩
    else none
  listdir := fun p => if p = ["e", "conda-meta"] then some ["history"] else none
  openJson := fun _ => none

/-- `/a` is an environment; `/a/bin/activate` is a symlink to `/a/foo/bar`,
a plain non-link file, so `_find_base` derives `/a` itself as the candidate
base directory and calls `make_guess('/a')` from inside `/a`'s own
constructor. -/
def fsC2 : FS where
  cwd := []
  isdir := fun p => decide (p ∈ [["a"], ["a", "conda-meta"]])
  isfile := fun p => decide (p ∈ [["a", "conda-meta", "history"], ["a", "foo", "bar"]])
  islink := fun p => decide (p = ["a", "bin", "activate"])
  readlink := fun p =>
    if p = ["a", "bin", "activate"] then some ⟨true, ["a", "foo", "bar"]⟩ else none
  listdir := fun p => if p = ["a", "conda-meta"] then some ["history"] else none
  openJson := fun _ => none

/-- `/p` is an environment whose tracked metadata file has a `name` field
but no `version` field. -/
def fsNullVersion : FS where
  cwd := []
  isdir := fun p => decide (p ∈ [["p"], ["p", "conda-meta"]])
  isfile := fun p => decide (p = ["p", "conda-meta", "history"])
  islink := fun _ => false
  readlink := fun _ => none
  listdir := fun p =>
    if p = ["p", "conda-meta"] then some ["history", "python-3.8.10-h.json"] else none
  openJson := fun p =>
    if p = ["p", "conda-meta", "python-3.8.10-h.json"] then
      some (.ok ⟨some "python", none⟩)
    else none

/-- A small tree under `/r`: `envA` (an environment, its own base, with a
tracked conda metadata file and a subdirectory `sub`), a `.git` directory
with a subdirectory `x`, and an ordinary directory `plain`. -/
def fsTree : FS where
  cwd := []
  isdir := fun p => decide (p ∈ [["r"], ["r", "envA"], ["r", ".git"], ["r", "plain"],
    ["r", "envA", "conda-meta"], ["r", "envA", "sub"], ["r", ".git", "x"]])
  isfile := fun p => decide (p ∈ [["r", "envA", "conda-meta", "history"],
    ["r", "envA", "bin", "activate"]])
  islink := fun _ => false
  readlink := fun _ => none
  listdir := fun p =>
    if p = ["r"] then some ["envA", ".git", "plain"]
    else if p = ["r", "envA"] then some ["conda-meta", "sub"]
    else if p = ["r", "envA", "conda-meta"] then some ["history", "conda-4.9.0-abc.json"]
    else if p = ["r", ".git"] then some ["x"]
    else if p = ["r", "plain"] then some []
    else none
  openJson := fun p =>
    if p = ["r", "envA", "conda-meta", "conda-4.9.0-abc.json"] then
      some (.ok ⟨some "conda", some "4.9.0"⟩)
    else none

/-- `/q/env1` is an environment whose `conda-meta` directory cannot be
listed (permission denied inside identity inference, not in the walk). -/
def fsC9 : FS where
  cwd := []
  isdir := fun p => decide (p ∈ [["q"], ["q", "env1"], ["q", "env1", "conda-meta"]])
  isfile := fun p => decide (p = ["q", "env1", "conda-meta", "history"])
  islink := fun _ => false
  readlink := fun _ => none
  listdir := fun p =>
    if p = ["q"] then some ["env1"]
    else if p = ["q", "env1"] then some ["conda-meta"]
    else none
  openJson := fun _ => none

/-- `/w` is an environment with a malformed tracked metadata file. -/
def fsParse : FS where
  cwd := []
  isdir := fun p => decide (p ∈ [["w"], ["w", "conda-meta"]])
  isfile := fun p => decide (p = ["w", "conda-meta", "history"])
  islink := fun _ => false
  readlink := fun _ => none
  listdir := fun p =>
    if p = ["w", "conda-meta"] then some ["history", "python-broken.json"] else none
  openJson := fun p =>
    if p = ["w", "conda-meta", "python-broken.json"] then some (.error ()) else none

/-- `/d` is a plain environment (no activation file, no metadata files). -/
def fsEnvYes : FS where
  cwd := []
  isdir := fun p => decide (p ∈ [["d"], ["d", "conda-meta"]])
  isfile := fun p => decide (p = ["d", "conda-meta", "history"])
  islink := fun _ => false
  readlink := fun _ => none
  listdir := fun p => if p = ["d", "conda-meta"] then some ["history"] else none
  openJson := fun _ => none

/-- The `Guess` delivered by a `make_guess` run (junk on failure). -/
def mkOk (r : St × Except Fail Guess) : Guess :=
  r.2.toOption.getD default

def c1run : St × Except Fail Guess :=
  make_guess 5 fsEmpty ⟨false, [".", "a", "b"]⟩ initSt

def c1guess : Guess := mkOk c1run

def chainRun : St × Except Fail Guess :=
  make_guess 20 fsChain ⟨true, ["e"]⟩ initSt

def chainGuess : Guess := mkOk chainRun

/-- The bare constructor run for `/e` under `fsChain` (the recursive
reference is the one `make_guess 20` would hand it; the cycle guard keeps
it from being called). -/
def chainInit : St × Except Fail Guess :=
  guess_init fsChain (fun b s => make_guess 19 fsChain ⟨true, b⟩ s) ⟨true, ["e"]⟩ initSt

def chainInitGuess : Guess := mkOk chainInit

def nullRun : St × Except Fail Guess :=
  make_guess 6 fsNullVersion ⟨true, ["p"]⟩ initSt

def nullGuess : Guess := mkOk nullRun

def envYesRun : St × Except Fail Guess :=
  make_guess 6 fsEnvYes ⟨true, ["d"]⟩ initSt

def envYesGuess : Guess := mkOk envYesRun

def treeRun : St × Except Fail Unit :=
  survey 10 fsTree PATHOLOGICAL_DIRS ⟨true, ["r"]⟩ initSt

def c9run : St × Except Fail Unit :=
  survey 10 fsC9 PATHOLOGICAL_DIRS ⟨true, ["q"]⟩ initSt

/-! ### Dictionary lemmas -/

theorem dictGet_dictSet_self {α β : Type} [DecidableEq α] (l : List (α × β)) (k : α) (v : β) :
    dictGet (dictSet l k v) k = some v := by
  induction l with
  | nil => simp [dictSet, dictGet]
  | cons kv rest ih =>
    rcases kv with ⟨k1, v1⟩
    by_cases h : k = k1 <;> simp [dictSet, dictGet, h, ih]

theorem dictGet_dictSet_ne {α β : Type} [DecidableEq α] (l : List (α × β)) (k k' : α) (v : β)
    (h : k' ≠ k) : dictGet (dictSet l k v) k' = dictGet l k' := by
  induction l with
  | nil => simp [dictSet, dictGet, h]
  | cons kv rest ih =>
    rcases kv with ⟨k1, v1⟩
    by_cases h1 : k = k1
    · subst h1
      simp [dictSet, dictGet, h]
    · by_cases h2 : k' = k1 <;> simp [dictSet, dictGet, h1, h2, ih]

theorem dictGet_dictUpdate_self {α β : Type} [DecidableEq α] (l : List (α × β)) (k : α)
    (f : β → β) : dictGet (dictUpdate l k f) k = (dictGet l k).map f := by
  induction l with
  | nil => simp [dictUpdate, dictGet]
  | cons kv rest ih =>
    rcases kv with ⟨k1, v1⟩
    by_cases h : k = k1 <;> simp [dictUpdate, dictGet, h, ih]

theorem dictGet_dictUpdate_ne {α β : Type} [DecidableEq α] (l : List (α × β)) (k k' : α)
    (f : β → β) (h : k' ≠ k) : dictGet (dictUpdate l k f) k' = dictGet l k' := by
  induction l with
  | nil => simp [dictUpdate, dictGet]
  | cons kv rest ih =>
    rcases kv with ⟨k1, v1⟩
    by_cases h1 : k = k1
    · subst h1
      simp [dictUpdate, dictGet, h]
    · by_cases h2 : k' = k1 <;> simp [dictUpdate, dictGet, h1, h2, ih]

theorem dictGet_mem {α β : Type} [DecidableEq α] {l : List (α × β)} {k : α} {v : β}
    (h : dictGet l k = some v) : (k, v) ∈ l := by
  induction l with
  | nil => simp [dictGet] at h
  | cons kv rest ih =>
    rcases kv with ⟨k1, v1⟩
    by_cases h1 : k = k1
    · subst h1
      simp [dictGet] at h
      simp [h]
    · simp [dictGet, h1] at h
      exact List.mem_cons_of_mem _ (ih h)

/-! ### Path lemmas -/

theorem append_singleton_ne_self (p : Path) (s : Path) (hs : s ≠ []) : p ++ s ≠ p := by
  intro h
  apply hs
  have := congrArg List.length h
  simp at this
  exact this

theorem normPath_append_good (l : List String) (n : String) (hn : goodName n) :
    normPath (l ++ [n]) = normPath l ++ [n] := by
  rcases hn with ⟨h1, h2, h3⟩
  unfold normPath
  rw [List.foldl_append]
  simp [h1, h2, h3]

theorem abspath_push (cwd : Path) (r : RawPath) (n : String) (hn : goodName n) :
    abspath cwd ⟨r.absolute, r.comps ++ [n]⟩ = abspath cwd r ++ [n] := by
  unfold abspath
  cases r.absolute with
  | true => simpa using normPath_append_good r.comps n hn
  | false =>
    simp only [Bool.false_eq_true, if_false]
    rw [← List.append_assoc]
    simpa using normPath_append_good (cwd ++ r.comps) n hn

/-! ### Evolution-predicate utilities -/

theorem preservedEntry_refl (e : Guess) : preservedEntry e e :=
  ⟨rfl, rfl, rfl, rfl, rfl, rfl, rfl, Or.inl rfl⟩

theorem preservedEntry_trans {a b c : Guess} (h1 : preservedEntry a b)
    (h2 : preservedEntry b c) : preservedEntry a c := by
  obtain ⟨d1, p1, m1, hi1, b1, a1, v1, hb1⟩ := h1
  obtain ⟨d2, p2, m2, hi2, b2, a2, v2, hb2⟩ := h2
  refine ⟨d2.trans d1, p2.trans p1, m2.trans m1, hi2.trans hi1, b2.trans b1,
    a2.trans a1, v2.trans v1, ?_⟩
  rcases hb1 with hb1 | ⟨x, k, hx, hk⟩
  · rcases hb2 with hb2 | ⟨y, k2, hy, hk2⟩
    · exact Or.inl (hb2.trans hb1)
    · exact Or.inr ⟨y, k2, hb1.symm.trans hy, hk2⟩
  · rcases hb2 with hb2 | ⟨y, k2, hy, hk2⟩
    · exact Or.inr ⟨x, k, hx, hb2.trans hk⟩
    · rw [hk] at hy
      exact BaseVal.noConfusion hy


theorem cacheEvolves_refl (s : St) : cacheEvolves s s :=
  fun _ e h => ⟨e, h, preservedEntry_refl e⟩

theorem cacheEvolves_trans {a b c : St} (h1 : cacheEvolves a b) (h2 : cacheEvolves b c) :
    cacheEvolves a c := by
  intro k e he
  obtain ⟨e1, he1, hp1⟩ := h1 k e he
  obtain ⟨e2, he2, hp2⟩ := h2 k e1 he1
  exact ⟨e2, he2, preservedEntry_trans hp1 hp2⟩

theorem eventsAppended_refl (s : St) : eventsAppended s s :=
  ⟨[], by simp, by simp⟩

theorem eventsAppended_trans {a b c : St} (h1 : eventsAppended a b)
    (h2 : eventsAppended b c) : eventsAppended a c := by
  obtain ⟨d1, he1, hd1⟩ := h1
  obtain ⟨d2, he2, hd2⟩ := h2
  refine ⟨d1 ++ d2, by rw [he2, he1, List.append_assoc], ?_⟩
  intro ev hev
  rcases List.mem_append.1 hev with h | h
  · exact hd1 ev h
  · exact hd2 ev h

theorem eventsAppended_cacheOnly {s : St} (c : List (Path × Guess)) :
    eventsAppended s { s with cache := c } :=
  ⟨[], by simp, by simp⟩

/-! ### `_find_versions` never touches the cache and only appends parse
diagnostics -/

theorem find_versions_go_state (fs : FS) (meta_dir : Path) :
    ∀ (names : List String) (vers : List (String × Option String)) (st : St),
    (find_versions_go fs meta_dir names vers st).1.cache = st.cache ∧
    eventsAppended st (find_versions_go fs meta_dir names vers st).1 := by
  intro names
  induction names with
  | nil => intro vers st; exact ⟨rfl, eventsAppended_refl st⟩
  | cons meta_name rest ih =>
    intro vers st
    cases h1 : pyEndsWith meta_name ".json" with
    | false => simpa only [find_versions_go, h1] using ih vers st
    | true =>
      cases h2 : PACKAGES_FOR_GUESS_VERSIONS.any (fun q => pyStartsWith meta_name q) with
      | false => simpa only [find_versions_go, h1, h2] using ih vers st
      | true =>
        cases hoj : fs.openJson (meta_dir ++ [meta_name]) with
        | none =>
          simp only [find_versions_go, h1, h2, hoj, Bool.not_true, if_false]
          exact ⟨rfl, eventsAppended_refl st⟩
        | some res =>
          cases res with
          | error u =>
            simp only [find_versions_go, h1, h2, hoj, Bool.not_true, if_false]
            exact ⟨rfl, ⟨[.parseDiag (meta_dir ++ [meta_name])], rfl, by simp⟩⟩
          | ok data =>
            cases hn : data.name with
            | none =>
              simpa only [find_versions_go, h1, h2, hoj, hn, Bool.not_true,
                if_false] using ih vers st
            | some n =>
              by_cases hne : n = ""
              · simpa only [find_versions_go, h1, h2, hoj, hn, hne, Bool.not_true,
                  if_false, ne_eq, not_true_eq_false, if_neg] using ih vers st
              · simpa only [find_versions_go, h1, h2, hoj, hn, Bool.not_true,
                  if_false, ne_eq, hne, not_false_eq_true, if_pos] using
                  ih (dictSet vers n data.version) st

theorem find_versions_state (fs : FS) (meta_dir history_file : Path) (st : St) :
    (find_versions fs meta_dir history_file st).1.cache = st.cache ∧
    eventsAppended st (find_versions fs meta_dir history_file st).1 := by
  unfold find_versions
  by_cases he : is_conda_environment fs meta_dir history_file
  · simp only [he, if_true]
    cases hld : fs.listdir meta_dir with
    | none => exact ⟨rfl, eventsAppended_refl st⟩
    | some names => exact find_versions_go_state fs meta_dir names [] st
  · simp only [he, if_false]
    exact ⟨rfl, eventsAppended_refl st⟩

theorem goodCache_of_cache_eq {s s' : St} (h : s'.cache = s.cache) (hgc : goodCache s) :
    goodCache s' := by
  intro k g hk
  rw [h] at hk
  exact hgc k g hk

theorem cacheEvolves_of_cache_eq {s s' : St} (h : s'.cache = s.cache) : cacheEvolves s s' :=
  fun _ e he => ⟨e, by rw [h]; exact he, preservedEntry_refl e⟩

/-! ### Soundness of the `make_guess` layer -/

theorem fix_base_sound {fs : FS} {recurse : Path → St → St × Except Fail Guess}
    (hrec : RecOK recurse) (g : Guess) (st st' : St) (r : Except Fail Guess)
    (hgc : goodCache st) (hget : dictGet st.cache g.path = some g)
    (h : fix_base fs recurse g st = (st', r)) :
    goodCache st' ∧ cacheEvolves st st' ∧ eventsAppended st st' ∧
    ∀ g', r = .ok g' → dictGet st'.cache g.path = some g' ∧ isStrB g'.base = false := by
  cases hb : g.base with
  | noneB =>
    simp only [fix_base, hb] at h
    injection h with h1 h2
    subst h1
    subst h2
    refine ⟨hgc, cacheEvolves_refl st, eventsAppended_refl st, ?_⟩
    intro g' hg'
    injection hg' with hgg
    subst hgg
    exact ⟨hget, by simp [isStrB, hb]⟩
  | ref k0 =>
    simp only [fix_base, hb] at h
    injection h with h1 h2
    subst h1
    subst h2
    refine ⟨hgc, cacheEvolves_refl st, eventsAppended_refl st, ?_⟩
    intro g' hg'
    injection hg' with hgg
    subst hgg
    exact ⟨hget, by simp [isStrB, hb]⟩
  | strB b =>
    simp only [fix_base, hb] at h
    rcases hmg : recurse b st with ⟨st1, r1⟩
    rw [hmg] at h
    cases r1 with
    | error e =>
      simp only at h
      injection h with h1 h2
      subst h1
      subst h2
      obtain ⟨hgc1, hce1, hea1, _⟩ := hrec b st st1 _ hgc hmg
      exact ⟨hgc1, hce1, hea1, fun g' hg' => Except.noConfusion hg'⟩
    | ok bg =>
      simp only at h
      obtain ⟨hgc1, hce1, hea1, _⟩ := hrec b st st1 _ hgc hmg
      obtain ⟨e1, hge1, hpe1⟩ := hce1 g.path g hget
      have hget2 : dictGet (dictUpdate st1.cache g.path
          (fun e => { e with base := .ref bg.path })) g.path =
          some { e1 with base := .ref bg.path } := by
        rw [dictGet_dictUpdate_self, hge1]
        rfl
      have hshape1 := hgc1 g.path e1 hge1
      rw [hget2] at h
      injection h with h1 h2
      subst h1
      subst h2
      refine ⟨?_, ?_, ?_, ?_⟩
      · intro k g2 hk2
        by_cases hk : k = g.path
        · subst hk
          simp only [hget2, Option.some.injEq] at hk2
          subst hk2
          exact hshape1
        · rw [dictGet_dictUpdate_ne _ _ _ _ hk] at hk2
          exact hgc1 k g2 hk2
      · intro k e0 he0
        by_cases hk : k = g.path
        · subst hk
          have he0g : e0 = g := by
            rw [hget] at he0
            injection he0 with h3
            exact h3.symm
          subst he0g
          refine ⟨{ e1 with base := .ref bg.path }, hget2, ?_⟩
          obtain ⟨d1, p1, m1, hi1, b1, a1, v1, _⟩ := hpe1
          exact ⟨d1, p1, m1, hi1, b1, a1, v1, Or.inr ⟨b, bg.path, hb, rfl⟩⟩
        · rw [dictGet_dictUpdate_ne _ _ _ _ hk]
          exact hce1 k e0 he0
      · exact hea1
      · intro g' hg'
        injection hg' with hgg
        subst hgg
        exact ⟨hget2, rfl⟩

theorem find_base_sound {fs : FS} {recurse : Path → St → St × Except Fail Guess}
    (hrec : RecOK recurse) (path meta_dir history_file activate_file : Path)
    (st st' : St) (r : Except Fail BaseVal) (hgc : goodCache st)
    (h : find_base fs recurse path meta_dir history_file activate_file st = (st', r)) :
    goodCache st' ∧ cacheEvolves st st' ∧ eventsAppended st st' := by
  unfold find_base at h
  cases he : is_conda_environment fs meta_dir history_file with
  | false =>
    rw [he] at h
    simp only [Bool.false_eq_true, if_false] at h
    injection h with h1 h2
    subst h1
    exact ⟨hgc, cacheEvolves_refl st, eventsAppended_refl st⟩
  | true =>
    rw [he] at h
    simp only [if_true] at h
    cases hl : fs.islink activate_file with
    | false =>
      rw [hl] at h
      simp only [Bool.false_eq_true, if_false] at h
      cases hf : fs.isfile activate_file with
      | false =>
        rw [hf] at h
        simp only [Bool.false_eq_true, if_false] at h
        injection h with h1 h2
        subst h1
        exact ⟨hgc, cacheEvolves_refl st, eventsAppended_refl st⟩
      | true =>
        rw [hf] at h
        simp only [if_true] at h
        injection h with h1 h2
        subst h1
        exact ⟨hgc, cacheEvolves_refl st, eventsAppended_refl st⟩
    | true =>
      rw [hl] at h
      simp only [if_true] at h
      cases hr : resolve_link fs activate_file with
      | error e =>
        rw [hr] at h
        simp only at h
        injection h with h1 h2
        subst h1
        exact ⟨hgc, cacheEvolves_refl st, eventsAppended_refl st⟩
      | ok tgt =>
        rw [hr] at h
        simp only at h
        cases hl2 : fs.islink tgt with
        | true =>
          rw [hl2] at h
          simp only [if_true] at h
          injection h with h1 h2
          subst h1
          exact ⟨hgc, cacheEvolves_refl st, eventsAppended_refl st⟩
        | false =>
          rw [hl2] at h
          simp only [Bool.false_eq_true, if_false] at h
          rcases hmg : recurse tgt.dropLast.dropLast st with ⟨st1, r1⟩
          rw [hmg] at h
          cases r1 with
          | error e =>
            simp only at h
            injection h with h1 h2
            subst h1
            obtain ⟨hgc1, hce1, hea1, _⟩ := hrec _ st st1 _ hgc hmg
            exact ⟨hgc1, hce1, hea1⟩
          | ok bg =>
            simp only at h
            injection h with h1 h2
            subst h1
            obtain ⟨hgc1, hce1, hea1, _⟩ := hrec _ st st1 _ hgc hmg
            exact ⟨hgc1, hce1, hea1⟩

theorem guess_init_sound {fs : FS} {recurse : Path → St → St × Except Fail Guess}
    (hrec : RecOK recurse) (d : RawPath) (st st' : St) (r : Except Fail Guess)
    (hgc : goodCache st) (h : guess_init fs recurse d st = (st', r)) :
    goodCache st' ∧ cacheEvolves st st' ∧ eventsAppended st st' ∧
    ∀ g, r = .ok g → g.dirpath = d ∧ g.path = abspath fs.cwd d ∧
      g.meta_dir = abspath fs.cwd d ++ ["conda-meta"] ∧
      g.history_file = abspath fs.cwd d ++ ["conda-meta", "history"] ∧
      g.bin_dir = abspath fs.cwd d ++ ["bin"] ∧
      g.activate_file = abspath fs.cwd d ++ ["bin", "activate"] := by
  simp only [guess_init] at h
  rcases hfb : find_base fs recurse (abspath fs.cwd d) (abspath fs.cwd d ++ ["conda-meta"])
      (abspath fs.cwd d ++ ["conda-meta"] ++ ["history"]) (abspath fs.cwd d ++ ["bin"] ++
      ["activate"]) st with ⟨st1, r1⟩
  rw [hfb] at h
  obtain ⟨hgc1, hce1, hea1⟩ := find_base_sound hrec _ _ _ _ st st1 r1 hgc hfb
  cases r1 with
  | error e =>
    simp only at h
    injection h with h1 h2
    subst h1
    exact ⟨hgc1, hce1, hea1, fun g hg => by
      rw [← h2] at hg
      exact Except.noConfusion hg⟩
  | ok base =>
    simp only at h
    rcases hfv : find_versions fs (abspath fs.cwd d ++ ["conda-meta"])
        (abspath fs.cwd d ++ ["conda-meta"] ++ ["history"]) st1 with ⟨st2, r2⟩
    rw [hfv] at h
    obtain ⟨hcache2, hea2⟩ := find_versions_state fs (abspath fs.cwd d ++ ["conda-meta"])
        (abspath fs.cwd d ++ ["conda-meta"] ++ ["history"]) st1
    rw [hfv] at hcache2
    rw [hfv] at hea2
    have hgc2 : goodCache st2 := goodCache_of_cache_eq hcache2 hgc1
    have hce2 : cacheEvolves st1 st2 := cacheEvolves_of_cache_eq hcache2
    cases r2 with
    | error e =>
      simp only at h
      injection h with h1 h2
      subst h1
      exact ⟨hgc2, cacheEvolves_trans hce1 hce2, eventsAppended_trans hea1 hea2,
        fun g hg => by
          rw [← h2] at hg
          exact Except.noConfusion hg⟩
    | ok versions =>
      simp only at h
      injection h with h1 h2
      subst h1
      refine ⟨hgc2, cacheEvolves_trans hce1 hce2, eventsAppended_trans hea1 hea2, ?_⟩
      intro g hg
      rw [← h2] at hg
      injection hg with hgg
      subst hgg
      refine ⟨rfl, rfl, rfl, ?_, rfl, ?_⟩
      · show abspath fs.cwd d ++ ["conda-meta"] ++ ["history"] =
          abspath fs.cwd d ++ ["conda-meta", "history"]
        rw [List.append_assoc]
        rfl
      · show abspath fs.cwd d ++ ["bin"] ++ ["activate"] =
          abspath fs.cwd d ++ ["bin", "activate"]
        rw [List.append_assoc]
        rfl

theorem make_guess_sound : ∀ (fuel : Nat) (fs : FS) (d : RawPath) (st st' : St)
    (r : Except Fail Guess), goodCache st → make_guess fuel fs d st = (st', r) →
    goodCache st' ∧ cacheEvolves st st' ∧ eventsAppended st st' ∧
    ∀ g, r = .ok g → dictGet st'.cache (abspath fs.cwd d) = some g ∧
      isStrB g.base = false := by
  intro fuel
  induction fuel using Nat.strong_induction_on with
  | _ fuel ih =>
    intro fs d st st' r hgc h
    match fuel with
    | 0 =>
      simp only [make_guess] at h
      injection h with h1 h2
      subst h1
      exact ⟨hgc, cacheEvolves_refl st, eventsAppended_refl st,
        fun g hg => by rw [← h2] at hg; exact Except.noConfusion hg⟩
    | f + 1 =>
      have hrec : RecOK (fun b s => make_guess f fs ⟨true, b⟩ s) := by
        intro b s s' r' hgc' h'
        have hres := ih f (by omega) fs ⟨true, b⟩ s s' r' hgc' h'
        have habs : abspath fs.cwd ⟨true, b⟩ = normPath b := rfl
        rw [habs] at hres
        exact hres
      simp only [make_guess] at h
      cases hlk : dictGet st.cache (abspath fs.cwd d) with
      | some g0 =>
        rw [hlk] at h
        simp only at h
        have hpath : g0.path = abspath fs.cwd d := (hgc _ _ hlk).1
        have hget : dictGet st.cache g0.path = some g0 := by rw [hpath]; exact hlk
        obtain ⟨hgc', hce', hea', hok⟩ := fix_base_sound hrec g0 st st' r hgc hget h
        refine ⟨hgc', hce', hea', ?_⟩
        intro g hg
        obtain ⟨hg1, hg2⟩ := hok g hg
        rw [hpath] at hg1
        exact ⟨hg1, hg2⟩
      | none =>
        rw [hlk] at h
        simp only at h
        rcases hgi : guess_init fs (fun b s => make_guess f fs ⟨true, b⟩ s) d st
            with ⟨st1, r1⟩
        rw [hgi] at h
        obtain ⟨hgc1, hce1, hea1, hshape⟩ := guess_init_sound hrec d st st1 r1 hgc hgi
        cases r1 with
        | error e =>
          simp only at h
          injection h with h1 h2
          subst h1
          exact ⟨hgc1, hce1, hea1, fun g hg => by
            rw [← h2] at hg; exact Except.noConfusion hg⟩
        | ok g =>
          simp only at h
          obtain ⟨hd1, hp1, hm1, hh1, hb1, ha1⟩ := hshape g rfl
          have hset : dictGet (dictSet st1.cache (abspath fs.cwd d) g)
              (abspath fs.cwd d) = some g :=
            dictGet_dictSet_self st1.cache (abspath fs.cwd d) g
          have hgc2 : goodCache { st1 with cache := dictSet st1.cache (abspath fs.cwd d) g } := by
            intro k g2 hk2
            by_cases hk : k = abspath fs.cwd d
            · subst hk
              simp only [hset] at hk2
              injection hk2 with hk2
              subst hk2
              exact ⟨hp1, by rw [hm1], by rw [hh1], by rw [hb1], by rw [ha1]⟩
            · simp only at hk2
              rw [dictGet_dictSet_ne _ _ _ _ hk] at hk2
              exact hgc1 k g2 hk2
          have hceS2 : cacheEvolves st ⟨dictSet st1.cache (abspath fs.cwd d) g, st1.events⟩ := by
            intro k e0 he0
            have hk : k ≠ abspath fs.cwd d := by
              intro hkk
              rw [hkk, hlk] at he0
              exact Option.noConfusion he0
            obtain ⟨e1, hge1, hpe1⟩ := hce1 k e0 he0
            refine ⟨e1, ?_, hpe1⟩
            simp only
            rw [dictGet_dictSet_ne _ _ _ _ hk]
            exact hge1
          have hgetg : dictGet (dictSet st1.cache (abspath fs.cwd d) g) g.path = some g := by
            rw [hp1]
            exact hset
          obtain ⟨hgc', hce', hea', hok⟩ := fix_base_sound hrec g
            ⟨dictSet st1.cache (abspath fs.cwd d) g, st1.events⟩ st' r hgc2 hgetg h
          refine ⟨hgc', cacheEvolves_trans hceS2 hce',
            eventsAppended_trans hea1 (eventsAppended_trans
              (eventsAppended_cacheOnly (dictSet st1.cache (abspath fs.cwd d) g)) hea'), ?_⟩
          intro g2 hg2
          obtain ⟨hg2a, hg2b⟩ := hok g2 hg2
          rw [hp1] at hg2a
          exact ⟨hg2a, hg2b⟩

theorem goodCache_initSt : goodCache initSt := by
  intro k g h
  exact Option.noConfusion h

/-! ### Divergence helpers -/

theorem fix_base_strB_error {fs : FS} {recurse : Path → St → St × Except Fail Guess}
    (g : Guess) (b : Path) (hb : g.base = .strB b) (st st1 : St) (e : Fail)
    (h : recurse b st = (st1, .error e)) :
    fix_base fs recurse g st = (st1, .error e) := by
  simp only [fix_base, hb, h]

theorem guess_init_error {fs : FS} {recurse : Path → St → St × Except Fail Guess}
    {d : RawPath} {st st1 : St} {e : Fail}
    (hfb : find_base fs recurse (abspath fs.cwd d) (abspath fs.cwd d ++ ["conda-meta"])
      (abspath fs.cwd d ++ ["conda-meta"] ++ ["history"])
      (abspath fs.cwd d ++ ["bin"] ++ ["activate"]) st = (st1, .error e)) :
    guess_init fs recurse d st = (st1, .error e) := by
  simp only [guess_init, hfb]

/-- Under `fsC2`, `make_guess('/a')` from any state not yet caching `/a`
exhausts every fuel: the constructor recursively requests `/a` before the
line 49 insertion has happened. -/
theorem make_guess_fsC2_fresh : ∀ (fuel : Nat) (st : St),
    dictGet st.cache ["a"] = none →
    (make_guess fuel fsC2 ⟨true, ["a"]⟩ st).2 = .error .fuelOut := by
  intro fuel
  induction fuel using Nat.strong_induction_on with
  | _ fuel ih =>
    intro st hst
    match fuel with
    | 0 => rfl
    | f + 1 =>
      rcases hrec : make_guess f fsC2 ⟨true, ["a"]⟩ st with ⟨st1, r1⟩
      have hr1 : r1 = .error .fuelOut := by
        have hx := ih f (by omega) st hst
        rw [hrec] at hx
        exact hx
      subst hr1
      have hfb : find_base fsC2 (fun b s => make_guess f fsC2 ⟨true, b⟩ s)
          (abspath fsC2.cwd ⟨true, ["a"]⟩)
          (abspath fsC2.cwd ⟨true, ["a"]⟩ ++ ["conda-meta"])
          (abspath fsC2.cwd ⟨true, ["a"]⟩ ++ ["conda-meta"] ++ ["history"])
          (abspath fsC2.cwd ⟨true, ["a"]⟩ ++ ["bin"] ++ ["activate"]) st
          = (st1, .error .fuelOut) := by
        show (match make_guess f fsC2 ⟨true, ["a"]⟩ st with
              | (s1, .error e) => (s1, .error e)
              | (s1, .ok bg) => (s1, Except.ok (BaseVal.ref bg.path))) =
            (st1, .error .fuelOut)
        rw [hrec]
      have hgi := guess_init_error hfb
      have hstep : make_guess (f + 1) fsC2 ⟨true, ["a"]⟩ st =
          match dictGet st.cache ["a"] with
          | some guess => fix_base fsC2 (fun b s => make_guess f fsC2 ⟨true, b⟩ s) guess st
          | none =>
            match guess_init fsC2 (fun b s => make_guess f fsC2 ⟨true, b⟩ s)
                ⟨true, ["a"]⟩ st with
            | (s1, Except.error e) => (s1, Except.error e)
            | (s1, Except.ok g) =>
              fix_base fsC2 (fun b s => make_guess f fsC2 ⟨true, b⟩ s) g
                ⟨dictSet s1.cache ["a"] g, s1.events⟩ := rfl
      rw [hstep, hst, hgi]

/-- The object `Guess('/e')` constructs under `fsLoop`: the cycle guard
leaves the raw candidate `/e` in `base`. -/
def loopGuess : Guess :=
  ⟨⟨true, ["e"]⟩, ["e"], ["e", "conda-meta"], ["e", "conda-meta", "history"],
   ["e", "bin"], ["e", "bin", "activate"], .strB ["e"], []⟩

/-- Under `fsLoop`, a `make_guess('/e')` that finds the constructed object
in the cache loops forever in the lines 51-53 fixup: the cached `base` is
still the raw string `/e` each time around. -/
theorem make_guess_fsLoop_hit : ∀ (fuel : Nat) (st : St),
    dictGet st.cache ["e"] = some loopGuess →
    (make_guess fuel fsLoop ⟨true, ["e"]⟩ st).2 = .error .fuelOut := by
  intro fuel
  induction fuel using Nat.strong_induction_on with
  | _ fuel ih =>
    intro st hst
    match fuel with
    | 0 => rfl
    | f + 1 =>
      rcases hrec : make_guess f fsLoop ⟨true, ["e"]⟩ st with ⟨st1, r1⟩
      have hr1 : r1 = .error .fuelOut := by
        have hx := ih f (by omega) st hst
        rw [hrec] at hx
        exact hx
      subst hr1
      have hfx : fix_base fsLoop (fun b s => make_guess f fsLoop ⟨true, b⟩ s)
          loopGuess st = (st1, .error .fuelOut) :=
        fix_base_strB_error loopGuess ["e"] rfl st st1 .fuelOut hrec
      have hstep : make_guess (f + 1) fsLoop ⟨true, ["e"]⟩ st =
          match dictGet st.cache ["e"] with
          | some guess => fix_base fsLoop (fun b s => make_guess f fsLoop ⟨true, b⟩ s) guess st
          | none =>
            match guess_init fsLoop (fun b s => make_guess f fsLoop ⟨true, b⟩ s)
                ⟨true, ["e"]⟩ st with
            | (s1, Except.error e) => (s1, Except.error e)
            | (s1, Except.ok g) =>
              fix_base fsLoop (fun b s => make_guess f fsLoop ⟨true, b⟩ s) g
                ⟨dictSet s1.cache ["e"] g, s1.events⟩ := rfl
      rw [hstep, hst]
      show (fix_base fsLoop (fun b s => make_guess f fsLoop ⟨true, b⟩ s)
        loopGuess st).2 = .error .fuelOut
      rw [hfx]

/-- Under `fsLoop`, `make_guess('/e')` from the fresh state never returns. -/
theorem make_guess_fsLoop_diverges : ∀ fuel : Nat,
    (make_guess fuel fsLoop ⟨true, ["e"]⟩ initSt).2 = .error .fuelOut := by
  intro fuel
  match fuel with
  | 0 => rfl
  | f + 1 =>
    have hstep : make_guess (f + 1) fsLoop ⟨true, ["e"]⟩ initSt =
        fix_base fsLoop (fun b s => make_guess f fsLoop ⟨true, b⟩ s) loopGuess
          ⟨[(["e"], loopGuess)], []⟩ := rfl
    rcases hrec : make_guess f fsLoop ⟨true, ["e"]⟩ ⟨[(["e"], loopGuess)], []⟩ with ⟨st1, r1⟩
    have hr1 : r1 = .error .fuelOut := by
      have hx := make_guess_fsLoop_hit f ⟨[(["e"], loopGuess)], []⟩ rfl
      rw [hrec] at hx
      exact hx
    subst hr1
    rw [hstep, fix_base_strB_error loopGuess ["e"] rfl _ st1 .fuelOut hrec]

/-! ### Claim theorems -/

/-- Claim C1: requesting the `Guess` for the same canonical path twice within
one run — even via different relative spellings `p`, `q` with the same
`abspath` — returns the identical cached arena entry, and the second request
leaves the whole process state (cache and event trace) unchanged, so each
physical directory is analyzed at most once however many traversal paths
reach it. -/
theorem c1_identity_memoization (fuel fuel' : Nat) (fs : FS) (p q : RawPath)
    (st st1 : St) (g : Guess) (hgc : goodCache st)
    (h1 : make_guess fuel fs p st = (st1, .ok g))
    (hpq : abspath fs.cwd q = abspath fs.cwd p) :
    make_guess (fuel' + 1) fs q st1 = (st1, .ok g) := by
  obtain ⟨hgc1, _, _, hres⟩ := make_guess_sound fuel fs p st st1 _ hgc h1
  obtain ⟨hget, hstr⟩ := hres g rfl
  have hq : dictGet st1.cache (abspath fs.cwd q) = some g := by
    rw [hpq]
    exact hget
  have hstep : make_guess (fuel' + 1) fs q st1 =
      match dictGet st1.cache (abspath fs.cwd q) with
      | some guess => fix_base fs (fun b s => make_guess fuel' fs ⟨true, b⟩ s) guess st1
      | none =>
        match guess_init fs (fun b s => make_guess fuel' fs ⟨true, b⟩ s) q st1 with
        | (s1, Except.error e) => (s1, Except.error e)
        | (s1, Except.ok g2) =>
          fix_base fs (fun b s => make_guess fuel' fs ⟨true, b⟩ s) g2
            ⟨dictSet s1.cache (abspath fs.cwd q) g2, s1.events⟩ := rfl
  rw [hstep, hq]
  show fix_base fs (fun b s => make_guess fuel' fs ⟨true, b⟩ s) g st1 = (st1, .ok g)
  cases hb : g.base with
  | strB b =>
    rw [hb] at hstr
    simp [isStrB] at hstr
  | noneB => simp [fix_base, hb]
  | ref k => simp [fix_base, hb]

/-- Witness for C1: under `fsEmpty` (working directory `/h`) the directory
first requested as `./a/b` and then as `a/b/` yields the identical cached
object, with the state untouched by the second request. -/
theorem c1_identity_memoization_witness :
    make_guess 2 fsEmpty ⟨false, ["a", "b", ""]⟩ c1run.1 = (c1run.1, .ok c1guess) :=
  c1_identity_memoization 5 1 fsEmpty ⟨false, [".", "a", "b"]⟩ ⟨false, ["a", "b", ""]⟩
    initSt c1run.1 c1guess goodCache_initSt rfl rfl

/-- Claim C2 (code bug evidence): the code evaluates `Guess(dirpath)` fully
before `Guess.GUESSES[path] = ...` stores it, so a reentrant lookup during
base resolution does not find an in-progress instance.  On `fsC2` — where
`/a/bin/activate` is a symlink to the plain file `/a/foo/bar`, making `/a`
its own candidate base — `make_guess('/a')` re-enters the constructor for
`/a` unboundedly and never returns, for every fuel. -/
theorem c2_insertion_after_construction_diverges :
    ∀ fuel : Nat, (make_guess fuel fsC2 ⟨true, ["a"]⟩ initSt).2 = .error .fuelOut :=
  fun fuel => make_guess_fsC2_fresh fuel initSt rfl

/-- Claim C3 counterexample: under `fsChain` — `E = /e` an environment whose
`bin/activate` symlink points at a target that is itself a symlink — the
call obtaining `E`'s identity succeeds and the observable `E.base` is an
object reference (the Identity for the raw candidate `/b`), not a raw path
string as the claim states. -/
theorem c3_base_not_raw_string_counterexample :
    chainRun.2 = .ok chainGuess ∧ chainGuess.base = .ref ["b"] ∧
    isStrB chainGuess.base = false :=
  ⟨rfl, rfl, rfl⟩

/-- Claim C3 (amended): when the resolved activation-link target is itself a
symlink, `_find_base` does not recurse and sets the in-construction `base`
to the raw candidate path string with the state untouched; `make_guess`
then resolves that raw string, so a `make_guess` that returns never hands
back a raw-string base (the caller sees an Identity reference); and on a
genuinely looping one-hop cycle (`/e/bin/activate` symlinked to itself,
`fsLoop`) `make_guess` never returns at all. -/
theorem c3_cycle_guard_amended :
    (∀ (fs : FS) (recurse : Path → St → St × Except Fail Guess)
        (path meta_dir history_file activate_file : Path) (st : St) (tgt : RawPath),
        is_conda_environment fs meta_dir history_file = true →
        fs.islink activate_file = true →
        fs.readlink activate_file = some tgt → tgt.absolute = true →
        fs.islink tgt.comps = true →
        find_base fs recurse path meta_dir history_file activate_file st =
          (st, .ok (.strB tgt.comps.dropLast.dropLast))) ∧
    (∀ (fuel : Nat) (fs : FS) (d : RawPath) (st st1 : St) (g : Guess),
        goodCache st → make_guess fuel fs d st = (st1, .ok g) →
        isStrB g.base = false) ∧
    (∀ fuel : Nat, (make_guess fuel fsLoop ⟨true, ["e"]⟩ initSt).2 = .error .fuelOut) := by
  refine ⟨?_, ?_, make_guess_fsLoop_diverges⟩
  · intro fs recurse path meta_dir history_file activate_file st tgt henv hlink hread
      habs hlink2
    simp only [find_base, resolve_link, henv, hlink, hread, habs, hlink2, if_true]
  · intro fuel fs d st st1 g hgc h
    exact ((make_guess_sound fuel fs d st st1 _ hgc h).2.2.2 g rfl).2

/-- Witness for the amended C3: the guard fires concretely for `/e` under
`fsChain`, and the successful `fsChain` run indeed carries no raw-string
base. -/
theorem c3_cycle_guard_amended_witness :
    find_base fsChain (fun b s => make_guess 18 fsChain ⟨true, b⟩ s) ["e"]
      ["e", "conda-meta"] ["e", "conda-meta", "history"] ["e", "bin", "activate"] initSt
      = (initSt, .ok (.strB ["b"])) ∧
    isStrB chainGuess.base = false := by
  constructor
  · exact c3_cycle_guard_amended.1 fsChain (fun b s => make_guess 18 fsChain ⟨true, b⟩ s)
      ["e"] ["e", "conda-meta"] ["e", "conda-meta", "history"] ["e", "bin", "activate"]
      initSt ⟨true, ["b", "bin", "activate"]⟩ rfl rfl rfl rfl rfl
  · exact c3_cycle_guard_amended.2.1 20 fsChain ⟨true, ["e"]⟩ initSt chainRun.1
      chainGuess goodCache_initSt rfl

/-- Claim C4: for every snapshot and every directory, the environment
predicate holds exactly when `D/conda-meta` is a directory and
`D/conda-meta/history` is a regular file; being a plain function of the
snapshot and the path, it is independent of traversal order. -/
theorem c4_environment_predicate (fs : FS) (d : Path) :
    envPred fs d =
      (fs.isdir (d ++ ["conda-meta"]) && fs.isfile (d ++ ["conda-meta", "history"])) := by
  unfold envPred is_conda_environment
  cases h1 : fs.isdir (d ++ ["conda-meta"]) <;>
    cases h2 : fs.isfile (d ++ ["conda-meta", "history"]) <;> simp [h1, h2]

/-- Claim C6 counterexample: `is_conda_environment` is a method recomputed
against the current filesystem — the same object answers `true` under
`fsEnvYes` and `false` under `fsEmpty` — and `make_guess` mutates the
`base` field after construction: the constructor for `/e` under `fsChain`
leaves the raw string `/b`, while the cached object after `make_guess`
holds an object reference. -/
theorem c6_counterexample :
    envYesRun.2 = .ok envYesGuess ∧
    is_conda_environment fsEnvYes envYesGuess.meta_dir envYesGuess.history_file = true ∧
    is_conda_environment fsEmpty envYesGuess.meta_dir envYesGuess.history_file = false ∧
    chainInit.2 = .ok chainInitGuess ∧ chainInitGuess.base = .strB ["b"] ∧
    dictGet chainRun.1.cache ["e"] = some chainGuess ∧ chainGuess.base = .ref ["b"] :=
  ⟨rfl, rfl, rfl, rfl, rfl, rfl, rfl⟩

/-- Claim C6 (amended): the constructor fully populates every field, but
`is_conda_environment` is recomputed from the live snapshot at each call
(it equals the current `isdir`/`isfile` conjunction, so it agrees across a
run only while the snapshot is unchanged), and a cached Identity is
immutable except that `make_guess` may replace a raw-string `base` with an
object reference. -/
theorem c6_snapshot_and_mutation_amended :
    (∀ (fs : FS) (meta_dir history_file : Path),
      is_conda_environment fs meta_dir history_file =
        (fs.isdir meta_dir && fs.isfile history_file)) ∧
    (∀ (fuel : Nat) (fs : FS) (d : RawPath) (st st1 : St) (r : Except Fail Guess),
      goodCache st → make_guess fuel fs d st = (st1, r) → cacheEvolves st st1) := by
  constructor
  · intro fs meta_dir history_file
    unfold is_conda_environment
    cases h1 : fs.isdir meta_dir <;> cases h2 : fs.isfile history_file <;> simp [h1, h2]
  · intro fuel fs d st st1 r hgc hmg
    exact (make_guess_sound fuel fs d st st1 r hgc hmg).2.1

/-- Witness for the amended C6: the predicate equation at `/d` under
`fsEnvYes`, and the evolution guarantee across the concrete `fsChain` run. -/
theorem c6_snapshot_and_mutation_amended_witness :
    is_conda_environment fsEnvYes ["d", "conda-meta"] ["d", "conda-meta", "history"] =
      (fsEnvYes.isdir ["d", "conda-meta"] && fsEnvYes.isfile ["d", "conda-meta", "history"]) ∧
    cacheEvolves initSt chainRun.1 :=
  ⟨c6_snapshot_and_mutation_amended.1 fsEnvYes ["d", "conda-meta"]
      ["d", "conda-meta", "history"],
   c6_snapshot_and_mutation_amended.2 20 fsChain ⟨true, ["e"]⟩ initSt chainRun.1
      (.ok chainGuess) goodCache_initSt rfl⟩

/-- Claim C7 counterexample: for a tracked metadata file whose `version`
field is absent (but `name` present), an entry IS recorded — mapping the
name to null — whereas the claim says no entry is recorded. -/
theorem c7_entry_recorded_without_version_counterexample :
    nullRun.2 = .ok nullGuess ∧ dictGet nullGuess.versions "python" = some none :=
  ⟨rfl, rfl⟩

/-- Claim C7 (amended): for each matching, parseable metadata file the loop
records `versions[name] = version` exactly when the `name` field is present
and non-empty — recording a null version when the `version` field is
absent; only a missing or empty `name` suppresses the entry. -/
theorem c7_version_recording_amended (fs : FS) (meta_dir : Path) (meta_name : String)
    (rest : List String) (versions : List (String × Option String)) (st : St)
    (data : MetaJson)
    (hext : pyEndsWith meta_name ".json" = true)
    (hpre : PACKAGES_FOR_GUESS_VERSIONS.any (fun q => pyStartsWith meta_name q) = true)
    (hok : fs.openJson (meta_dir ++ [meta_name]) = some (.ok data)) :
    find_versions_go fs meta_dir (meta_name :: rest) versions st =
      find_versions_go fs meta_dir rest
        (match data.name with
         | some n => if n ≠ "" then dictSet versions n data.version else versions
         | none => versions) st := by
  simp only [find_versions_go, hext, hpre, hok, Bool.not_true, if_false]
  cases hn : data.name with
  | none => rfl
  | some n =>
    by_cases hne : n = "" <;> simp [hne]

/-- Witness for the amended C7: the concrete `python` metadata file with no
`version` field records `("python", null)`. -/
theorem c7_version_recording_amended_witness :
    find_versions_go fsNullVersion ["p", "conda-meta"] ["python-3.8.10-h.json"] [] initSt =
      find_versions_go fsNullVersion ["p", "conda-meta"] [] [("python", none)] initSt :=
  c7_version_recording_amended fsNullVersion ["p", "conda-meta"] "python-3.8.10-h.json"
    [] [] initSt ⟨some "python", none⟩ (by decide) (by decide) rfl

/-- Claim C10: with `conda-meta/python-….json` containing a `name` but no
`version`, the constructed versions map holds `python ↦ null`, and
`report_for_jira` raises `AttributeError` (`None.startswith`) instead of
rendering the `N/A` placeholder. -/
theorem c10_null_version_attribute_error :
    nullRun.2 = .ok nullGuess ∧
    dictGet nullGuess.versions "python" = some none ∧
    report_for_jira "host" nullGuess = .error .attrErr :=
  ⟨rfl, rfl, rfl⟩

theorem find_base_no_link (fs : FS) (recurse : Path → St → St × Except Fail Guess)
    (path meta_dir history_file activate_file : Path) (st : St)
    (hl : fs.islink activate_file = false) :
    find_base fs recurse path meta_dir history_file activate_file st =
      (st, .ok (if is_conda_environment fs meta_dir history_file then
        (if fs.isfile activate_file then BaseVal.ref path else BaseVal.noneB)
        else BaseVal.noneB)) := by
  unfold find_base
  cases he : is_conda_environment fs meta_dir history_file with
  | false => simp [he]
  | true =>
    simp only [he, if_true, hl, Bool.false_eq_true, if_false]
    cases hf : fs.isfile activate_file with
    | false => simp [hf]
    | true => simp [hf]

/-- In the `_find_versions` loop, a tracked malformed file makes the whole
loop abort on the first failing tracked file, after printing its path: the
result is a re-raised parse error, nothing is skipped or defaulted.  The
hypothesis that no tracked file fails to open rules out the distinct (also
fatal) `OSError` outcome. -/
theorem find_versions_go_parse_error (fs : FS) (meta_dir : Path) :
    ∀ (names : List String) (versions : List (String × Option String)) (st : St)
    (f : String), f ∈ names → pyEndsWith f ".json" = true →
    PACKAGES_FOR_GUESS_VERSIONS.any (fun q => pyStartsWith f q) = true →
    fs.openJson (meta_dir ++ [f]) = some (.error ()) →
    (∀ x ∈ names, pyEndsWith x ".json" = true →
      PACKAGES_FOR_GUESS_VERSIONS.any (fun q => pyStartsWith x q) = true →
      fs.openJson (meta_dir ++ [x]) ≠ none) →
    ∃ f2, pyEndsWith f2 ".json" = true ∧
      PACKAGES_FOR_GUESS_VERSIONS.any (fun q => pyStartsWith f2 q) = true ∧
      fs.openJson (meta_dir ++ [f2]) = some (.error ()) ∧
      find_versions_go fs meta_dir names versions st =
        ({ st with events := st.events ++ [.parseDiag (meta_dir ++ [f2])] },
         .error (.parseErr (meta_dir ++ [f2]))) := by
  intro names
  induction names with
  | nil =>
    intro versions st f hf
    cases hf
  | cons hd rest ih =>
    intro versions st f hf hext hpre hbad hopen
    have hopen' : ∀ x ∈ rest, pyEndsWith x ".json" = true →
        PACKAGES_FOR_GUESS_VERSIONS.any (fun q => pyStartsWith x q) = true →
        fs.openJson (meta_dir ++ [x]) ≠ none :=
      fun x hx => hopen x (List.mem_cons_of_mem _ hx)
    cases hhe : pyEndsWith hd ".json" with
    | false =>
      have hf2 : f ∈ rest := by
        rcases List.mem_cons.1 hf with h | h
        · rw [h] at hext
          rw [hhe] at hext
          cases hext
        · exact h
      obtain ⟨f2, a, b, c, hgo⟩ := ih versions st f hf2 hext hpre hbad hopen'
      refine ⟨f2, a, b, c, ?_⟩
      simp only [find_versions_go, hhe, Bool.not_false, if_true]
      exact hgo
    | true =>
      cases hhp : PACKAGES_FOR_GUESS_VERSIONS.any (fun q => pyStartsWith hd q) with
      | false =>
        have hf2 : f ∈ rest := by
          rcases List.mem_cons.1 hf with h | h
          · rw [h] at hpre
            rw [hhp] at hpre
            cases hpre
          · exact h
        obtain ⟨f2, a, b, c, hgo⟩ := ih versions st f hf2 hext hpre hbad hopen'
        refine ⟨f2, a, b, c, ?_⟩
        simp only [find_versions_go, hhe, hhp, Bool.not_true, Bool.not_false,
          if_false, if_true]
        exact hgo
      | true =>
        cases hoj : fs.openJson (meta_dir ++ [hd]) with
        | none => exact absurd hoj (hopen hd (List.mem_cons_self hd rest) hhe hhp)
        | some res =>
          cases res with
          | error u =>
            cases u
            refine ⟨hd, hhe, hhp, hoj, ?_⟩
            simp only [find_versions_go, hhe, hhp, hoj, Bool.not_true, if_false,
              Bool.false_eq_true]
          | ok data =>
            have hf2 : f ∈ rest := by
              rcases List.mem_cons.1 hf with h | h
              · rw [h] at hbad
                rw [hoj] at hbad
                cases hbad
              · exact h
            cases hn : data.name with
            | none =>
              obtain ⟨f2, a, b, c, hgo⟩ := ih versions st f hf2 hext hpre hbad hopen'
              refine ⟨f2, a, b, c, ?_⟩
              simp only [find_versions_go, hhe, hhp, hoj, hn, Bool.not_true, if_false]
              exact hgo
            | some n =>
              by_cases hne : n = ""
              · obtain ⟨f2, a, b, c, hgo⟩ := ih versions st f hf2 hext hpre hbad hopen'
                refine ⟨f2, a, b, c, ?_⟩
                simp only [find_versions_go, hhe, hhp, hoj, hn, hne, Bool.not_true,
                  if_false, ne_eq, not_true_eq_false]
                exact hgo
              · obtain ⟨f2, a, b, c, hgo⟩ :=
                  ih (dictSet versions n data.version) st f hf2 hext hpre hbad hopen'
                refine ⟨f2, a, b, c, ?_⟩
                simp only [find_versions_go, hhe, hhp, hoj, hn, Bool.not_true, if_false,
                  ne_eq, hne, not_false_eq_true, if_pos]
                exact hgo

/-- Claim C8: when the directory is an environment (with a link-free
activation file, so base resolution does not recurse) and some tracked
metadata file is malformed while all tracked files open, `make_guess`
terminates the run: its result is the re-raised parse error for a tracked
malformed file, whose path was printed as the diagnostic — the file is not
skipped or defaulted, and nothing is cached. -/
theorem c8_parse_error_fatal (fuel : Nat) (fs : FS) (d : RawPath) (st : St)
    (names : List String) (f : String)
    (hfresh : dictGet st.cache (abspath fs.cwd d) = none)
    (henv : is_conda_environment fs (abspath fs.cwd d ++ ["conda-meta"])
      (abspath fs.cwd d ++ ["conda-meta"] ++ ["history"]) = true)
    (hnolink : fs.islink (abspath fs.cwd d ++ ["bin"] ++ ["activate"]) = false)
    (hld : fs.listdir (abspath fs.cwd d ++ ["conda-meta"]) = some names)
    (hf : f ∈ names) (hext : pyEndsWith f ".json" = true)
    (hpre : PACKAGES_FOR_GUESS_VERSIONS.any (fun q => pyStartsWith f q) = true)
    (hbad : fs.openJson (abspath fs.cwd d ++ ["conda-meta"] ++ [f]) = some (.error ()))
    (hopen : ∀ x ∈ names, pyEndsWith x ".json" = true →
      PACKAGES_FOR_GUESS_VERSIONS.any (fun q => pyStartsWith x q) = true →
      fs.openJson (abspath fs.cwd d ++ ["conda-meta"] ++ [x]) ≠ none) :
    ∃ f2, pyEndsWith f2 ".json" = true ∧
      PACKAGES_FOR_GUESS_VERSIONS.any (fun q => pyStartsWith f2 q) = true ∧
      fs.openJson (abspath fs.cwd d ++ ["conda-meta"] ++ [f2]) = some (.error ()) ∧
      make_guess (fuel + 1) fs d st =
        ({ st with events := st.events ++
            [.parseDiag (abspath fs.cwd d ++ ["conda-meta"] ++ [f2])] },
         .error (.parseErr (abspath fs.cwd d ++ ["conda-meta"] ++ [f2]))) := by
  obtain ⟨f2, h1, h2, h3, hgo⟩ := find_versions_go_parse_error fs
    (abspath fs.cwd d ++ ["conda-meta"]) names [] st f hf hext hpre hbad hopen
  refine ⟨f2, h1, h2, h3, ?_⟩
  have hfb := find_base_no_link fs (fun b s => make_guess fuel fs ⟨true, b⟩ s)
    (abspath fs.cwd d) (abspath fs.cwd d ++ ["conda-meta"])
    (abspath fs.cwd d ++ ["conda-meta"] ++ ["history"])
    (abspath fs.cwd d ++ ["bin"] ++ ["activate"]) st hnolink
  have hfv : find_versions fs (abspath fs.cwd d ++ ["conda-meta"])
      (abspath fs.cwd d ++ ["conda-meta"] ++ ["history"]) st =
      ({ st with events := st.events ++
          [.parseDiag (abspath fs.cwd d ++ ["conda-meta"] ++ [f2])] },
       .error (.parseErr (abspath fs.cwd d ++ ["conda-meta"] ++ [f2]))) := by
    unfold find_versions
    rw [henv]
    simp only [if_true]
    rw [hld]
    exact hgo
  have hgi : guess_init fs (fun b s => make_guess fuel fs ⟨true, b⟩ s) d st =
      ({ st with events := st.events ++
          [.parseDiag (abspath fs.cwd d ++ ["conda-meta"] ++ [f2])] },
       .error (.parseErr (abspath fs.cwd d ++ ["conda-meta"] ++ [f2]))) := by
    simp only [guess_init, hfb, hfv]
  have hstep : make_guess (fuel + 1) fs d st =
      match dictGet st.cache (abspath fs.cwd d) with
      | some guess => fix_base fs (fun b s => make_guess fuel fs ⟨true, b⟩ s) guess st
      | none =>
        match guess_init fs (fun b s => make_guess fuel fs ⟨true, b⟩ s) d st with
        | (s1, Except.error e) => (s1, Except.error e)
        | (s1, Except.ok g) =>
          fix_base fs (fun b s => make_guess fuel fs ⟨true, b⟩ s) g
            ⟨dictSet s1.cache (abspath fs.cwd d) g, s1.events⟩ := rfl
  rw [hstep, hfresh, hgi]

/-- Witness for C8: the malformed `python-broken.json` under `fsParse`
aborts `make_guess('/w')` with the parse error and prints the diagnostic. -/
theorem c8_parse_error_fatal_witness :
    make_guess 3 fsParse ⟨true, ["w"]⟩ initSt =
      (⟨[], [Event.parseDiag ["w", "conda-meta", "python-broken.json"]]⟩,
       .error (.parseErr ["w", "conda-meta", "python-broken.json"])) := by
  obtain ⟨f2, h1, h2, h3, heq⟩ := c8_parse_error_fatal 2 fsParse ⟨true, ["w"]⟩ initSt
    ["history", "python-broken.json"] "python-broken.json" rfl rfl rfl rfl
    (by simp) (by decide) (by decide) rfl
    (by
      intro x hx hxe hxp
      simp only [List.mem_cons, List.not_mem_nil, or_false] at hx
      rcases hx with hx | hx <;> subst hx
      · exact absurd hxe (by decide)
      · decide)
  have hf2 : f2 = "python-broken.json" := by
    by_cases hcond : f2 = "python-broken.json"
    · exact hcond
    · exfalso
      have hne : ("w" :: "conda-meta" :: [f2] : List String) ≠
          ["w", "conda-meta", "python-broken.json"] := by simp [hcond]
      have h3' : (if ("w" :: "conda-meta" :: [f2] : List String) =
          ["w", "conda-meta", "python-broken.json"] then
          some (Except.error ()) else (none : Option (Except Unit MetaJson))) =
          some (.error ()) := h3
      rw [if_neg hne] at h3'
      cases h3'
  subst hf2
  exact heq

/-- Claim C9 counterexample: under `fsC9`, listing `/q/env1/conda-meta`
fails (permission denied) during identity inference; the run aborts with an
uncaught `OSError` — not a parse error — and nothing is reported through
the `onerror` callback (the trace holds only the two visits). -/
theorem c9_io_error_not_tolerated_counterexample :
    c9run.2 = .error (.osErr ["q", "env1", "conda-meta"]) ∧
    c9run.1.events = [Event.visit ["q"], Event.visit ["q", "env1"]] :=
  ⟨rfl, rfl⟩

/-- Claim C9 (amended): I/O errors raised by the walk's own directory scan
are reported through `onerror` with the offending path and the walk goes on
(the node yields `.ok`, so surviving siblings are still processed); but a
filesystem error inside identity inference — such as listing an
environment's `conda-meta` — is not tolerated and aborts the run, as the
concrete `fsC9` run shows. -/
theorem c9_walk_errors_tolerated_amended :
    (∀ (fuel : Nat) (fs : FS) (avoid : List String) (d : RawPath) (st : St),
      fs.listdir (abspath fs.cwd d) = none →
      survey (fuel + 1) fs avoid d st =
        ({ st with events := st.events ++ [.walkError (abspath fs.cwd d)] }, .ok ())) ∧
    c9run.2 = .error (.osErr ["q", "env1", "conda-meta"]) := by
  constructor
  · intro fuel fs avoid d st hld
    simp only [survey, hld]
  · rfl

/-- Witness for the amended C9: a start directory that cannot be scanned is
reported via `onerror` and the walk completes normally. -/
theorem c9_walk_errors_tolerated_amended_witness :
    survey 1 fsEmpty PATHOLOGICAL_DIRS ⟨true, ["z"]⟩ initSt =
      (⟨[], [Event.walkError ["z"]]⟩, .ok ()) :=
  c9_walk_errors_tolerated_amended.1 0 fsEmpty PATHOLOGICAL_DIRS ⟨true, ["z"]⟩ initSt rfl

/-! ### Soundness of the tree walk -/

theorem diag_no_visit {δ : List Event} (hδ : ∀ ev ∈ δ, ∃ q, ev = Event.parseDiag q) :
    (∀ q, Event.visit q ∉ δ) ∧ ∀ g, Event.report g ∉ δ := by
  refine ⟨fun q hq => ?_, fun g hg => ?_⟩
  · obtain ⟨q', hq'⟩ := hδ _ hq
    exact Event.noConfusion hq'
  · obtain ⟨q', hq'⟩ := hδ _ hg
    exact Event.noConfusion hq'

theorem append_longer_ne (a : Path) (n : String) (t s : Path) :
    a ++ [n] ++ t ++ s ≠ a := by
  intro h
  have := congrArg List.length h
  simp at this

theorem basenameRaw_push (d : RawPath) (n : String) :
    basenameRaw ⟨d.absolute, d.comps ++ [n]⟩ = n := by
  unfold basenameRaw
  simp

theorem head_of_shape {a : Path} {n n' : String} {t t' : Path}
    (h : a ++ [n] ++ t = a ++ [n'] ++ t') : n = n' := by
  rw [List.append_assoc, List.append_assoc] at h
  have h2 := List.append_cancel_left h
  simp at h2
  exact h2.1

theorem survey_children_sound {fs : FS} {avoid : List String}
    {walk : RawPath → St → St × Except Fail Unit}
    (hwalk : WalkOK fs avoid walk) :
    ∀ (names : List String) (d : RawPath) (st st' : St) (r : Except Fail Unit),
    goodCache st → (∀ n ∈ names, goodName n) → names.Nodup →
    survey_children fs walk d names st = (st', r) →
    goodCache st' ∧
    ∃ Δ, st'.events = st.events ++ Δ ∧
      (∀ q, Event.visit q ∈ Δ → ∃ n, n ∈ names ∧ ∃ t, q = abspath fs.cwd d ++ [n] ++ t) ∧
      (∀ g, Event.report g ∈ Δ → envPred fs g.path = true) ∧
      (r = .ok () → ∀ q, Event.visit q ∈ Δ → envPred fs q = true →
        ∃ g, Event.report g ∈ Δ ∧ g.path = q) ∧
      (∀ q, Event.visit q ∈ Δ → envPred fs q = true →
        ∀ s, s ≠ [] → Event.visit (q ++ s) ∉ Δ) ∧
      (∀ q m, Event.visit q ∈ Δ → envPred fs q = false → q.getLast? = some m →
        m ∈ avoid → ∀ s, s ≠ [] → Event.visit (q ++ s) ∉ Δ) := by
  intro names
  induction names with
  | nil =>
    intro d st st' r hgc hgood hnd h
    simp only [survey_children] at h
    injection h with h1 h2
    subst h1
    exact ⟨hgc, [], by simp, by simp, by simp, by simp, by simp, by simp⟩
  | cons n rest ih =>
    intro d st st' r hgc hgood hnd h
    have hgn : goodName n := hgood n (List.mem_cons_self n rest)
    have hgood' : ∀ m ∈ rest, goodName m := fun m hm => hgood m (List.mem_cons_of_mem _ hm)
    obtain ⟨hnn, hnd'⟩ := List.nodup_cons.1 hnd
    have habs : abspath fs.cwd ⟨d.absolute, d.comps ++ [n]⟩ = abspath fs.cwd d ++ [n] :=
      abspath_push fs.cwd d n hgn
    have hstep : survey_children fs walk d (n :: rest) st =
        if fs.islink (abspath fs.cwd ⟨d.absolute, d.comps ++ [n]⟩) then
          survey_children fs walk d rest st
        else
          match walk ⟨d.absolute, d.comps ++ [n]⟩ st with
          | (st1, Except.error e) => (st1, Except.error e)
          | (st1, Except.ok u) => survey_children fs walk d rest st1 := rfl
    rw [hstep] at h
    cases hlink : fs.islink (abspath fs.cwd ⟨d.absolute, d.comps ++ [n]⟩) with
    | true =>
      rw [if_pos hlink] at h
      obtain ⟨hgc', Δ, hev, hvis, hrep, hokr, henv5, hdeny6⟩ :=
        ih d st st' r hgc hgood' hnd' h
      refine ⟨hgc', Δ, hev, ?_, hrep, hokr, henv5, hdeny6⟩
      intro q hq
      obtain ⟨m, hm, t, ht⟩ := hvis q hq
      exact ⟨m, List.mem_cons_of_mem _ hm, t, ht⟩
    | false =>
      have hlf : ¬ (fs.islink (abspath fs.cwd ⟨d.absolute, d.comps ++ [n]⟩) = true) := by
        rw [hlink]
        simp
      rw [if_neg hlf] at h
      rcases hw : walk ⟨d.absolute, d.comps ++ [n]⟩ st with ⟨st1, r1⟩
      rw [hw] at h
      obtain ⟨hgc1, Δ1, hev1, hvis1, henvP1, hdenyP1, hrep1, hokr1, henv1, hdeny1⟩ :=
        hwalk _ st st1 r1 hgc hw
      rw [habs] at hvis1 henvP1 hdenyP1 hdeny1
      rw [basenameRaw_push d n] at hdenyP1
      have hdeny1' : ∀ q m, Event.visit q ∈ Δ1 → envPred fs q = false →
          q.getLast? = some m → m ∈ avoid → ∀ s, s ≠ [] →
          Event.visit (q ++ s) ∉ Δ1 := by
        intro q m hq hqe hql hm s hs hmem
        by_cases hroot : q = abspath fs.cwd d ++ [n]
        · have hm2 : m = n := by
            rw [hroot, List.getLast?_concat] at hql
            injection hql with hx
            exact hx.symm
          subst hm2
          have hall := hdenyP1 (by rw [hroot] at hqe; exact hqe) hm
          have hq2 := hall (q ++ s) hmem
          rw [← hroot] at hq2
          exact append_singleton_ne_self q s hs hq2
        · exact hdeny1 q m hq hqe hroot hql hm s hs hmem
      cases r1 with
      | error e =>
        simp only at h
        injection h with h1 h2
        subst h1
        refine ⟨hgc1, Δ1, hev1, ?_, hrep1, ?_, henv1, hdeny1'⟩
        · intro q hq
          obtain ⟨t, ht⟩ := hvis1 q hq
          exact ⟨n, List.mem_cons_self n rest, t, ht⟩
        · intro hr
          rw [← h2] at hr
          exact Except.noConfusion hr
      | ok u =>
        cases u
        simp only at h
        obtain ⟨hgc', Δ2, hev2, hvis2, hrep2, hokr2, henv2, hdeny2⟩ :=
          ih d st1 st' r hgc1 hgood' hnd' h
        have hcross1 : ∀ q x, Event.visit q ∈ Δ1 → Event.visit (q ++ x) ∉ Δ2 := by
          intro q x hq hmem
          obtain ⟨t, ht⟩ := hvis1 q hq
          obtain ⟨m', hm', t', ht'⟩ := hvis2 (q ++ x) hmem
          have hcomb : abspath fs.cwd d ++ [n] ++ (t ++ x) =
              abspath fs.cwd d ++ [m'] ++ t' := by
            rw [← List.append_assoc, ← ht]
            exact ht'
          exact hnn (head_of_shape hcomb ▸ hm')
        have hcross2 : ∀ q x, Event.visit q ∈ Δ2 → Event.visit (q ++ x) ∉ Δ1 := by
          intro q x hq hmem
          obtain ⟨m', hm', t, ht⟩ := hvis2 q hq
          obtain ⟨t', ht'⟩ := hvis1 (q ++ x) hmem
          have hcomb : abspath fs.cwd d ++ [m'] ++ (t ++ x) =
              abspath fs.cwd d ++ [n] ++ t' := by
            rw [← List.append_assoc, ← ht]
            exact ht'
          exact hnn ((head_of_shape hcomb).symm ▸ hm')
        refine ⟨hgc', Δ1 ++ Δ2, ?_, ?_, ?_, ?_, ?_, ?_⟩
        · rw [hev2, hev1, List.append_assoc]
        · intro q hq
          rcases List.mem_append.1 hq with hq | hq
          · obtain ⟨t, ht⟩ := hvis1 q hq
            exact ⟨n, List.mem_cons_self n rest, t, ht⟩
          · obtain ⟨m, hm, t, ht⟩ := hvis2 q hq
            exact ⟨m, List.mem_cons_of_mem _ hm, t, ht⟩
        · intro g hg
          rcases List.mem_append.1 hg with hg | hg
          · exact hrep1 g hg
          · exact hrep2 g hg
        · intro hr q hq hqe
          rcases List.mem_append.1 hq with hq | hq
          · obtain ⟨g, hgmem, hgp⟩ := hokr1 rfl q hq hqe
            exact ⟨g, List.mem_append.2 (Or.inl hgmem), hgp⟩
          · obtain ⟨g, hgmem, hgp⟩ := hokr2 hr q hq hqe
            exact ⟨g, List.mem_append.2 (Or.inr hgmem), hgp⟩
        · intro q hq hqe s hs hmem
          rcases List.mem_append.1 hq with hq | hq <;>
            rcases List.mem_append.1 hmem with hmem | hmem
          · exact henv1 q hq hqe s hs hmem
          · exact hcross1 q s hq hmem
          · exact hcross2 q s hq hmem
          · exact henv2 q hq hqe s hs hmem
        · intro q m hq hqe hql hm s hs hmem
          rcases List.mem_append.1 hq with hq | hq <;>
            rcases List.mem_append.1 hmem with hmem | hmem
          · exact hdeny1' q m hq hqe hql hm s hs hmem
          · exact hcross1 q s hq hmem
          · exact hcross2 q s hq hmem
          · exact hdeny2 q m hq hqe hql hm s hs hmem

theorem visit_mem_head {p q : Path} {δ : List Event}
    (hδ : ∀ q', Event.visit q' ∉ δ)
    (hq : Event.visit q ∈ [Event.visit p] ++ δ) : q = p := by
  rcases List.mem_append.1 hq with hq | hq
  · simp at hq
    exact hq
  · exact absurd hq (hδ q)

theorem report_mem_head {p : Path} {g : Guess} {δ : List Event}
    (hδ : ∀ g', Event.report g' ∉ δ)
    (hg : Event.report g ∈ [Event.visit p] ++ δ) : False := by
  rcases List.mem_append.1 hg with hg | hg
  · simp at hg
  · exact hδ g hg

theorem visit_mem_head3 {p q : Path} {g0 : Guess} {δ : List Event}
    (hδ : ∀ q', Event.visit q' ∉ δ)
    (hq : Event.visit q ∈ [Event.visit p] ++ δ ++ [Event.report g0]) : q = p := by
  rcases List.mem_append.1 hq with hq | hq
  · exact visit_mem_head hδ hq
  · simp at hq

theorem report_mem_head3 {p : Path} {g g0 : Guess} {δ : List Event}
    (hδ : ∀ g', Event.report g' ∉ δ)
    (hg : Event.report g ∈ [Event.visit p] ++ δ ++ [Event.report g0]) : g = g0 := by
  rcases List.mem_append.1 hg with hg | hg
  · exact absurd hg (fun hx => report_mem_head hδ hx)
  · simp at hg
    exact hg

theorem survey_sound {fs : FS} {avoid : List String} (hok : okNames fs) :
    ∀ fuel : Nat, WalkOK fs avoid (fun dd ss => survey fuel fs avoid dd ss) := by
  intro fuel
  induction fuel using Nat.strong_induction_on with
  | _ fuel ih =>
    intro d st st' r hgc h
    match fuel with
    | 0 =>
      simp only [survey] at h
      injection h with h1 h2
      subst h1
      exact ⟨hgc, [], by simp, by simp, by simp, by simp, by simp, by simp, by simp,
        by simp⟩
    | f + 1 =>
      replace h : survey (f + 1) fs avoid d st = (st', r) := h
      have hwalkIH : WalkOK fs avoid (fun dd ss => survey f fs avoid dd ss) :=
        ih f (by omega)
      have hstep : survey (f + 1) fs avoid d st =
          match fs.listdir (abspath fs.cwd d) with
          | none =>
            ({ st with events := st.events ++ [.walkError (abspath fs.cwd d)] }, .ok ())
          | some entries =>
            match make_guess f fs d
                { st with events := st.events ++ [.visit (abspath fs.cwd d)] } with
            | (st1, Except.error e) => (st1, Except.error e)
            | (st1, Except.ok guess) =>
              if is_conda_environment fs guess.meta_dir guess.history_file then
                ({ st1 with events := st1.events ++ [.report guess] }, .ok ())
              else if basenameRaw d ∈ avoid then (st1, .ok ())
              else survey_children fs (fun c s => survey f fs avoid c s) d
                (entries.filter fun n => fs.isdir (abspath fs.cwd d ++ [n])) st1 := rfl
      rw [hstep] at h
      cases hld : fs.listdir (abspath fs.cwd d) with
      | none =>
        rw [hld] at h
        simp only at h
        injection h with h1 h2
        subst h1
        exact ⟨hgc, [Event.walkError (abspath fs.cwd d)], rfl, by simp, by simp,
          by simp, by simp, by simp, by simp, by simp⟩
      | some entries =>
        rw [hld] at h
        simp only at h
        obtain ⟨hnodupE, hgoodE⟩ := hok (abspath fs.cwd d) entries hld
        have hnodupN : (entries.filter fun n => fs.isdir (abspath fs.cwd d ++ [n])).Nodup :=
          hnodupE.filter _
        have hgoodN : ∀ n ∈ entries.filter fun n => fs.isdir (abspath fs.cwd d ++ [n]),
            goodName n := fun n hn => hgoodE n (List.mem_filter.1 hn).1
        rcases hmg : make_guess f fs d
            { st with events := st.events ++ [.visit (abspath fs.cwd d)] } with ⟨st1, r1⟩
        rw [hmg] at h
        have hgc0 : goodCache
            { st with events := st.events ++ [Event.visit (abspath fs.cwd d)] } := hgc
        obtain ⟨hgc1, _, hea1, hsres⟩ := make_guess_sound f fs d _ st1 r1 hgc0 hmg
        obtain ⟨δ, hδev, hδdiag⟩ := hea1
        obtain ⟨hδnovisit, hδnoreport⟩ := diag_no_visit hδdiag
        have hev1 : st1.events = st.events ++ ([Event.visit (abspath fs.cwd d)] ++ δ) := by
          rw [hδev]
          simp [List.append_assoc]
        cases r1 with
        | error e =>
          simp only at h
          injection h with h1 h2
          subst h1
          refine ⟨hgc1, [Event.visit (abspath fs.cwd d)] ++ δ, hev1, ?_, ?_, ?_, ?_,
            ?_, ?_, ?_⟩
          · intro q hq
            exact ⟨[], by rw [visit_mem_head hδnovisit hq]; simp⟩
          · intro _ q hq
            exact visit_mem_head hδnovisit hq
          · intro _ _ q hq
            exact visit_mem_head hδnovisit hq
          · intro g hg
            exact absurd hg (fun hx => report_mem_head hδnoreport hx)
          · intro hr
            rw [← h2] at hr
            exact Except.noConfusion hr
          · intro q hq hqe s hs hmem
            have h3 := visit_mem_head hδnovisit hq
            have h4 := visit_mem_head hδnovisit hmem
            rw [h3] at h4
            exact append_singleton_ne_self _ s hs h4
          · intro q m hq hqe hne hql hm s hs hmem
            exact hne (visit_mem_head hδnovisit hq)
        | ok guess =>
          simp only at h
          obtain ⟨hget1, hstr1⟩ := hsres guess rfl
          have hshape := hgc1 _ _ hget1
          have henvEq : is_conda_environment fs guess.meta_dir guess.history_file =
              envPred fs (abspath fs.cwd d) := by
            rw [hshape.2.1, hshape.2.2.1]
            rfl
          rw [henvEq] at h
          cases henv : envPred fs (abspath fs.cwd d) with
          | true =>
            rw [if_pos henv] at h
            injection h with h1 h2
            subst h1
            refine ⟨hgc1,
              [Event.visit (abspath fs.cwd d)] ++ δ ++ [Event.report guess], ?_, ?_, ?_,
              ?_, ?_, ?_, ?_, ?_⟩
            · show st1.events ++ [Event.report guess] = _
              rw [hev1]
              simp [List.append_assoc]
            · intro q hq
              exact ⟨[], by rw [visit_mem_head3 hδnovisit hq]; simp⟩
            · intro _ q hq
              exact visit_mem_head3 hδnovisit hq
            · intro _ _ q hq
              exact visit_mem_head3 hδnovisit hq
            · intro g hg
              rw [report_mem_head3 hδnoreport hg, hshape.1]
              exact henv
            · intro _ q hq hqe
              refine ⟨guess, by simp, ?_⟩
              rw [hshape.1, visit_mem_head3 hδnovisit hq]
            · intro q hq hqe s hs hmem
              have h3 := visit_mem_head3 hδnovisit hq
              have h4 := visit_mem_head3 hδnovisit hmem
              rw [h3] at h4
              exact append_singleton_ne_self _ s hs h4
            · intro q m hq hqe hne hql hm s hs hmem
              exact hne (visit_mem_head3 hδnovisit hq)
          | false =>
            have hneg : ¬ (envPred fs (abspath fs.cwd d) = true) := by
              rw [henv]
              simp
            rw [if_neg hneg] at h
            by_cases hbn : basenameRaw d ∈ avoid
            · rw [if_pos hbn] at h
              injection h with h1 h2
              subst h1
              refine ⟨hgc1, [Event.visit (abspath fs.cwd d)] ++ δ, hev1, ?_, ?_, ?_,
                ?_, ?_, ?_, ?_⟩
              · intro q hq
                exact ⟨[], by rw [visit_mem_head hδnovisit hq]; simp⟩
              · intro hP
                exact absurd hP (by simp)
              · intro _ _ q hq
                exact visit_mem_head hδnovisit hq
              · intro g hg
                exact absurd hg (fun hx => report_mem_head hδnoreport hx)
              · intro _ q hq hqe
                rw [visit_mem_head hδnovisit hq] at hqe
                rw [henv] at hqe
                exact absurd hqe (by simp)
              · intro q hq hqe s hs hmem
                rw [visit_mem_head hδnovisit hq] at hqe
                rw [henv] at hqe
                exact absurd hqe (by simp)
              · intro q m hq hqe hne hql hm s hs hmem
                exact hne (visit_mem_head hδnovisit hq)
            · rw [if_neg hbn] at h
              obtain ⟨hgc', Δc, hevc, hvisc, hrepc, hokrc, henvc, hdenyc⟩ :=
                survey_children_sound hwalkIH
                  (entries.filter fun n => fs.isdir (abspath fs.cwd d ++ [n])) d st1 st'
                  r hgc1 hgoodN hnodupN h
              have hsplit : ∀ q, Event.visit q ∈
                  ([Event.visit (abspath fs.cwd d)] ++ δ) ++ Δc →
                  q = abspath fs.cwd d ∨ Event.visit q ∈ Δc := by
                intro q hq
                rcases List.mem_append.1 hq with hq | hq
                · exact Or.inl (visit_mem_head hδnovisit hq)
                · exact Or.inr hq
              have hchildshape : ∀ q, Event.visit q ∈ Δc →
                  ∃ n t, q = abspath fs.cwd d ++ [n] ++ t := by
                intro q hq
                obtain ⟨n, _, t, ht⟩ := hvisc q hq
                exact ⟨n, t, ht⟩
              have hnotroot : ∀ q s, Event.visit q ∈ Δc →
                  q ++ s ≠ abspath fs.cwd d := by
                intro q s hq
                obtain ⟨n, t, ht⟩ := hchildshape q hq
                rw [ht]
                exact append_longer_ne _ n t s
              refine ⟨hgc', ([Event.visit (abspath fs.cwd d)] ++ δ) ++ Δc, ?_, ?_, ?_,
                ?_, ?_, ?_, ?_, ?_⟩
              · rw [hevc, hev1]
                simp [List.append_assoc]
              · intro q hq
                rcases hsplit q hq with hq | hq
                · exact ⟨[], by rw [hq]; simp⟩
                · obtain ⟨n, t, ht⟩ := hchildshape q hq
                  exact ⟨[n] ++ t, by rw [ht]; simp [List.append_assoc]⟩
              · intro hP
                exact absurd hP (by simp)
              · intro _ hbn2
                exact absurd hbn2 hbn
              · intro g hg
                rcases List.mem_append.1 hg with hg | hg
                · exact absurd hg (fun hx => report_mem_head hδnoreport hx)
                · exact hrepc g hg
              · intro hr q hq hqe
                rcases hsplit q hq with hq2 | hq2
                · rw [hq2, henv] at hqe
                  exact absurd hqe (by simp)
                · obtain ⟨g, hgmem, hgp⟩ := hokrc hr q hq2 hqe
                  exact ⟨g, List.mem_append.2 (Or.inr hgmem), hgp⟩
              · intro q hq hqe s hs hmem
                rcases hsplit q hq with hq2 | hq2
                · rw [hq2, henv] at hqe
                  exact absurd hqe (by simp)
                · rcases hsplit (q ++ s) hmem with hm2 | hm2
                  · exact hnotroot q s hq2 hm2
                  · exact henvc q hq2 hqe s hs hm2
              · intro q m hq hqe hne hql hm s hs hmem
                rcases hsplit q hq with hq2 | hq2
                · exact hne hq2
                · rcases hsplit (q ++ s) hmem with hm2 | hm2
                  · exact hnotroot q s hq2 hm2
                  · exact hdenyc q m hq2 hqe hql hm s hs hm2

theorem okNames_fsTree : okNames fsTree := by
  intro p l h
  simp only [fsTree] at h
  split_ifs at h with h1 h2 h3 h4 h5
  all_goals first
    | (injection h with hh; subst hh; exact ⟨by decide, by decide⟩)
    | exact Option.noConfusion h

/-- Claim C5: during a walk from any start directory over a snapshot with
sane listings, once a node is classified as an environment it is reported
through the report callback and pruned, so no path beneath it is ever
visited in that walk; and a visited non-environment directory whose name is
in the denylist (its last canonical component, which for every non-root
node is the spelled basename) is never descended into and never reported as
a match. -/
theorem c5_walk_pruning (fuel : Nat) (fs : FS) (avoid : List String) (d : RawPath)
    (st' : St) (hok : okNames fs)
    (hrun : survey fuel fs avoid d initSt = (st', .ok ())) :
    (∀ p, Event.visit p ∈ st'.events → envPred fs p = true →
      (∃ g, Event.report g ∈ st'.events ∧ g.path = p) ∧
      ∀ s, s ≠ [] → Event.visit (p ++ s) ∉ st'.events) ∧
    (∀ p n, Event.visit p ∈ st'.events → envPred fs p = false →
      p ≠ abspath fs.cwd d → p.getLast? = some n → n ∈ avoid →
      (∀ g, Event.report g ∈ st'.events → g.path ≠ p) ∧
      ∀ s, s ≠ [] → Event.visit (p ++ s) ∉ st'.events) := by
  obtain ⟨_, Δ, hev, hvis, henvP, hdenyP, hrep, hokr, henvND, hdenyND⟩ :=
    survey_sound hok fuel d initSt st' (.ok ()) goodCache_initSt hrun
  have hevΔ : st'.events = Δ := by
    rw [hev]
    simp [initSt]
  constructor
  · intro p hp henvp
    rw [hevΔ] at hp
    constructor
    · obtain ⟨g, hg, hgp⟩ := hokr rfl p hp henvp
      exact ⟨g, by rw [hevΔ]; exact hg, hgp⟩
    · intro s hs
      rw [hevΔ]
      exact henvND p hp henvp s hs
  · intro p n hp henvp hne hql hn
    rw [hevΔ] at hp
    constructor
    · intro g hg hgp
      rw [hevΔ] at hg
      have := hrep g hg
      rw [hgp, henvp] at this
      exact Bool.noConfusion this
    · intro s hs
      rw [hevΔ]
      exact hdenyND p n hp henvp hne hql hn s hs

/-- Witness for C5 on the concrete tree under `/r`: the environment `envA`
is reported and its subdirectory `sub` is never visited; the denylisted
`.git` is visited but `.git/x` is never visited and `.git` is never
reported. -/
theorem c5_walk_pruning_witness :
    (∃ g, Event.report g ∈ treeRun.1.events ∧ g.path = ["r", "envA"]) ∧
    Event.visit ["r", "envA", "sub"] ∉ treeRun.1.events ∧
    Event.visit ["r", ".git", "x"] ∉ treeRun.1.events ∧
    (∀ g, Event.report g ∈ treeRun.1.events → g.path ≠ ["r", ".git"]) := by
  have hrun : survey 10 fsTree PATHOLOGICAL_DIRS ⟨true, ["r"]⟩ initSt =
      (treeRun.1, .ok ()) := rfl
  have hmain := c5_walk_pruning 10 fsTree PATHOLOGICAL_DIRS ⟨true, ["r"]⟩ treeRun.1
    okNames_fsTree hrun
  refine ⟨?_, ?_, ?_, ?_⟩
  · exact (hmain.1 ["r", "envA"] (by decide) (by decide)).1
  · exact (hmain.1 ["r", "envA"] (by decide) (by decide)).2 ["sub"] (by decide)
  · exact (hmain.2 ["r", ".git"] ".git" (by decide) (by decide) (by decide)
      (by decide) (by decide)).2 ["x"] (by decide)
  · exact (hmain.2 ["r", ".git"] ".git" (by decide) (by decide) (by decide)
      (by decide) (by decide)).1

end SurveyCondaEnvs
